import Mathlib

/-!
Verification development for the BestwAI raffle platform (src/app.py).

The application state (an SQL database accessed through SQLAlchemy) is
modelled as a structure of lists of rows, one list per table, in insertion
order.  Each HTTP handler / helper function of app.py is translated into a
pure function on this state; the background scheduler tick and the manual
draw trigger are included as operations.  Randomness (random.choice) is
modelled by an oracle `σ : ℕ → ℕ` supplying one index per call; wall-clock
time (datetime.utcnow) is an explicit `now : ℕ` parameter measured in
minutes.  Python float arithmetic in the draw (`int(total_pot * 0.20)`,
`int(prize_pool * dist)` with dist ∈ {0.625, 0.375, 1.0}) is exact for the
integer pots the app produces (the literals are dyadic / the products round
exactly), and is modelled as exact rational arithmetic with floor.
-/

namespace Bestw

/-- Row of the `participant` table (class Participant, app.py).  The
`created_at` timestamp column is omitted (never read by the core logic). -/
structure Participant where
  id : ℕ
  name : String
  phone : String
  wager_amount : ℕ
  verified : Bool
  deriving DecidableEq, Repr

/-- Row of the `raffle` table (class Raffle, app.py).  `status` is one of
"pending", "drawing", "completed"; `created_at` is omitted. -/
structure Raffle where
  id : ℕ
  draw_time : ℕ
  total_pot : ℕ
  status : String
  deriving DecidableEq, Repr

/-- Row of the `entry` table (class Entry, app.py).  The autoincrement id and
timestamp are omitted; an entry is identified by its (raffle, participant)
foreign-key pair. -/
structure Entry where
  raffle_id : ℕ
  participant_id : ℕ
  entry_count : ℕ
  deriving DecidableEq, Repr

/-- Row of the `winner` table (class Winner, app.py); id and timestamp
omitted. -/
structure Winner where
  raffle_id : ℕ
  participant_id : ℕ
  amount_won : ℕ
  position : ℕ
  deriving DecidableEq, Repr

/-- One element of the `winners_data` list returned by execute_raffle_draw
(name, amount, position; the phone_last4 display field is omitted). -/
structure WinnerData where
  name : String
  amount : ℕ
  position : ℕ
  deriving DecidableEq, Repr

/-- The dict returned by execute_raffle_draw.  The two early returns omit the
house_cut key, hence the Option. -/
structure DrawResult where
  winners : List WinnerData
  pot : ℕ
  house_cut : Option ℕ
  raffle_id : ℕ
  deriving DecidableEq, Repr

/-- A JSON response of an API route: either a success payload or an error
with its HTTP status code. -/
inductive ApiResult (α : Type) where
  | ok (value : α)
  | err (code : ℕ) (message : String)
  deriving DecidableEq, Repr

/-- Whether an API response is an error response (non-2xx with an error
body). -/
def ApiResult.isErr {α : Type} : ApiResult α → Bool
  | .ok _ => false
  | .err _ _ => true

/-- The whole database: one list of rows per table, in insertion order, plus
the next autoincrement id (shared by the participant and raffle tables,
whose ids are used as foreign keys). -/
structure DB where
  configs : List (String × String)
  participants : List Participant
  raffles : List Raffle
  entries : List Entry
  winners : List Winner
  nextId : ℕ
  deriving DecidableEq, Repr

/-- Mutate the first row matching a predicate, as SQLAlchemy does when a
fetched row object is modified and committed. -/
def updateFirst {α : Type} (p : α → Bool) (f : α → α) : List α → List α
  | [] => []
  | a :: l => if p a then f a :: l else a :: updateFirst p f l

/-- get_config (app.py): value of a key in the Config table, with default. -/
def getConfig (db : DB) (key default : String) : String :=
  match db.configs.find? (fun kv => kv.1 == key) with
  | some kv => kv.2
  | none => default

/-- set_config (app.py): update an existing key or insert a new row. -/
def setConfig (db : DB) (key value : String) : DB :=
  if (db.configs.find? (fun kv => kv.1 == key)).isSome then
    { db with configs := updateFirst (fun kv => kv.1 == key) (fun kv => (kv.1, value)) db.configs }
  else
    { db with configs := db.configs ++ [(key, value)] }

/-- Next :00 or :30 boundary strictly after `now` (minutes): the draw-time
computation of get_current_raffle, with time in minutes so that the local
offset arithmetic cancels out. -/
def nextDrawTime (now : ℕ) : ℕ := now / 30 * 30 + 30

/-- The status test used by all pending-raffle queries. -/
def raffleIsPending (r : Raffle) : Bool := r.status == "pending"

/-- Number of raffles in status pending. -/
def pendingCount (db : DB) : ℕ := db.raffles.countP raffleIsPending

/-- All entry rows of one raffle (Entry.query.filter_by(raffle_id=...)). -/
def entriesFor (db : DB) (rid : ℕ) : List Entry :=
  db.entries.filter (fun e => e.raffle_id == rid)

/-- Sum of the entry counts of one raffle's entries. -/
def entrySum (db : DB) (rid : ℕ) : ℕ :=
  ((entriesFor db rid).map (fun e => e.entry_count)).sum

/-- get_current_raffle (app.py): return the pending raffle; if none exists,
create one with the next half-hour draw time and auto-add every verified
participant with entry_count = wager_amount / 10, growing the pot by each
wager. -/
def get_current_raffle (now : ℕ) (db : DB) : DB × Raffle :=
  match db.raffles.find? raffleIsPending with
  | some r => (db, r)
  | none =>
    let rid := db.nextId
    let verified := db.participants.filter (fun p => p.verified)
    let pot := (verified.map (fun p => p.wager_amount)).sum
    let raffle : Raffle := { id := rid, draw_time := nextDrawTime now, total_pot := pot, status := "pending" }
    let newEntries := verified.map (fun p =>
      ({ raffle_id := rid, participant_id := p.id, entry_count := p.wager_amount / 10 } : Entry))
    ({ db with raffles := db.raffles ++ [raffle],
               entries := db.entries ++ newEntries,
               nextId := rid + 1 }, raffle)

/-- add_verified_participant_to_raffle (app.py): enter a participant into the
current raffle unless already entered; on success add an entry with
entry_count = wager_amount / 10 and grow the raffle's pot by the wager. -/
def add_verified_participant_to_raffle (now : ℕ) (db : DB) (p : Participant) : DB × Bool :=
  let db1 := (get_current_raffle now db).1
  let raffle := (get_current_raffle now db).2
  match db1.entries.find? (fun e => e.raffle_id == raffle.id && e.participant_id == p.id) with
  | some _ => (db1, false)
  | none =>
    let entry : Entry := { raffle_id := raffle.id, participant_id := p.id, entry_count := p.wager_amount / 10 }
    ({ db1 with entries := db1.entries ++ [entry],
                raffles := updateFirst (fun r => r.id == raffle.id)
                  (fun r => { r with total_pot := r.total_pot + p.wager_amount }) db1.raffles }, true)

/-- The weighted pool of execute_raffle_draw: each participant id repeated
entry_count times. -/
def weightedEntries (entries : List Entry) : List ℕ :=
  entries.flatMap (fun e => List.replicate e.entry_count e.participant_id)

/-- house_cut = int(total_pot * 0.20) (app.py line 224); exact for the
app's integer pots, i.e. the floor of one fifth of the pot. -/
def houseCut (total_pot : ℕ) : ℕ := total_pot * 20 / 100

/-- The distribution list of execute_raffle_draw: [0.625, 0.375] truncated to
winner_count, replaced by [1.0] for a single winner. -/
def distributionsFor (winner_count : ℕ) : List ℚ :=
  let d := ([(0.625 : ℚ), (0.375 : ℚ)]).take winner_count
  if winner_count == 1 then [(1 : ℚ)] else d

/-- amount = int(prize_pool * dist): floor of the exact product. -/
def payout (prize_pool : ℕ) (dist : ℚ) : ℕ := (⌊(prize_pool : ℚ) * dist⌋).toNat

/-- random.choice modelled by the oracle: the element at index σ k mod the
pool size. -/
def choiceAt (σ : ℕ → ℕ) (k : ℕ) (l : List ℕ) : ℕ := l.getD (σ k % l.length) 0

/-- The inner while loop of the draw (attempts < 100): while the chosen id is
already selected, drop its occurrences and re-choose.  Returns the final
choice, the remaining pool and the next oracle index. -/
def retrySelect (σ : ℕ → ℕ) (selected : List ℕ) : ℕ → ℕ → ℕ → List ℕ → ℕ × List ℕ × ℕ
  | 0, winner_id, k, remaining => (winner_id, remaining, k)
  | fuel + 1, winner_id, k, remaining =>
    if selected.contains winner_id then
      let remaining2 := remaining.filter (fun e => e != winner_id)
      if remaining2.isEmpty then (winner_id, remaining2, k)
      else retrySelect σ selected fuel (choiceAt σ k remaining2) (k + 1) remaining2
    else (winner_id, remaining, k)

/-- The winner-selection loop of execute_raffle_draw: one iteration per
distribution entry (position counts from 1 as with enumerate), choosing
uniformly from the remaining pool, skipping already-selected or unknown
participants, and removing all occurrences of a recorded winner from the
pool.  Returns the Winner rows and the winners_data payload. -/
def selectWinners (σ : ℕ → ℕ) (parts : List Participant) (prize_pool rid : ℕ) :
    List ℚ → ℕ → ℕ → List ℕ → List ℕ → List Winner × List WinnerData
  | [], _, _, _, _ => ([], [])
  | dist :: rest, position, k, selected, remaining =>
    if remaining.isEmpty then ([], [])
    else
      let t := retrySelect σ selected 100 (choiceAt σ k remaining) (k + 1) remaining
      let winner_id := t.1
      let remaining2 := t.2.1
      let k2 := t.2.2
      if selected.contains winner_id then
        selectWinners σ parts prize_pool rid rest (position + 1) k2 selected remaining2
      else
        match parts.find? (fun p => p.id == winner_id) with
        | none => selectWinners σ parts prize_pool rid rest (position + 1) k2 selected remaining2
        | some p =>
          let amount := payout prize_pool dist
          let tail2 := selectWinners σ parts prize_pool rid rest (position + 1) k2
            (winner_id :: selected) (remaining2.filter (fun e => e != winner_id))
          (({ raffle_id := rid, participant_id := p.id, amount_won := amount, position := position } : Winner) :: tail2.1,
           ({ name := p.name, amount := amount, position := position } : WinnerData) :: tail2.2)

/-- The raffle lookup at the top of execute_raffle_draw: by primary key when a
raffle_id is given, else the first pending raffle. -/
def drawTarget (raffle_id : Option ℕ) (db : DB) : Option Raffle :=
  match raffle_id with
  | some i => db.raffles.find? (fun r => r.id == i)
  | none => db.raffles.find? raffleIsPending

/-- Status update of one raffle row (raffle.status = s; db.session.commit()). -/
def setRaffleStatus (rid : ℕ) (s : String) (db : DB) : DB :=
  let rs := updateFirst (fun r => r.id == rid) (fun r => { r with status := s }) db.raffles
  { db with raffles := rs }

/-- execute_raffle_draw (app.py): None unless the target raffle is pending;
otherwise mark it drawing, and with no entries complete it and roll over;
else compute house cut and prize pool, select min 2 (distinct participants)
weighted winners, record them, complete the raffle and roll over a new
pending raffle. -/
def execute_raffle_draw (σ : ℕ → ℕ) (now : ℕ) (raffle_id : Option ℕ) (db : DB) :
    DB × Option DrawResult :=
  match drawTarget raffle_id db with
  | none => (db, none)
  | some raffle =>
    if raffleIsPending raffle then
      let db1 := setRaffleStatus raffle.id "drawing" db
      let entries := entriesFor db1 raffle.id
      if entries.isEmpty then
        let db2 := (get_current_raffle now (setRaffleStatus raffle.id "completed" db1)).1
        (db2, some { winners := [], pot := 0, house_cut := none, raffle_id := raffle.id })
      else
        let weighted := weightedEntries entries
        let total_pot := raffle.total_pot
        let house_cut := houseCut total_pot
        let prize_pool := total_pot - house_cut
        let winner_count := min 2 weighted.dedup.length
        if winner_count == 0 then
          let db2 := (get_current_raffle now (setRaffleStatus raffle.id "completed" db1)).1
          (db2, some { winners := [], pot := 0, house_cut := none, raffle_id := raffle.id })
        else
          let sel := selectWinners σ db1.participants prize_pool raffle.id
            (distributionsFor winner_count) 1 0 [] weighted
          let db2 := { db1 with winners := db1.winners ++ sel.1 }
          let db3 := (get_current_raffle now (setRaffleStatus raffle.id "completed" db2)).1
          (db3, some { winners := sel.2, pot := total_pot, house_cut := some house_cut, raffle_id := raffle.id })
    else (db, none)

/-- signup (app.py /api/signup): validate name, phone, wager (a positive
multiple of 10) and PIN; then, for a known phone, add the wager to the
existing participant and increment (or create) their entry in the current
raffle; for a new phone, create an auto-verified participant and enter them
into the current raffle. -/
def signup (now : ℕ) (name phone : String) (wager : ℕ) (pin : String) (db : DB) :
    DB × ApiResult ℕ :=
  if name == "" then (db, .err 400 "Name is required")
  else if phone == "" then (db, .err 400 "Phone number is required")
  else if wager < 10 then (db, .err 400 "Minimum wager is 10")
  else if wager % 10 != 0 then (db, .err 400 "Wager must be in multiples of 10")
  else if pin != getConfig db "admin_pin" "1234" then (db, .err 403 "Invalid PIN")
  else
    let db1 := (get_current_raffle now db).1
    let raffle := (get_current_raffle now db).2
    match db1.participants.find? (fun p => p.phone == phone) with
    | some existing =>
      let updated : Participant :=
        { existing with wager_amount := existing.wager_amount + wager, name := name }
      let ps2 := updateFirst (fun p => p.id == existing.id) (fun _ => updated) db1.participants
      let db2 := { db1 with participants := ps2 }
      match db2.entries.find? (fun e => e.raffle_id == raffle.id && e.participant_id == existing.id) with
      | some _ =>
        let es3 := updateFirst
          (fun e => e.raffle_id == raffle.id && e.participant_id == existing.id)
          (fun e => { e with entry_count := e.entry_count + wager / 10 }) db2.entries
        let rs3 := updateFirst (fun r => r.id == raffle.id)
          (fun r => { r with total_pot := r.total_pot + wager }) db2.raffles
        let db3 := { db2 with entries := es3, raffles := rs3 }
        (db3, .ok existing.id)
      | none =>
        ((add_verified_participant_to_raffle now db2 updated).1, .ok existing.id)
    | none =>
      let participant : Participant :=
        { id := db1.nextId, name := name, phone := phone, wager_amount := wager, verified := true }
      let db2 := { db1 with participants := db1.participants ++ [participant], nextId := db1.nextId + 1 }
      ((add_verified_participant_to_raffle now db2 participant).1, .ok participant.id)

/-- verify_participant (app.py): 404 for an unknown id, 400 if already
verified, else mark verified and enter into the current raffle. -/
def verify_participant (now : ℕ) (participant_id : ℕ) (db : DB) : DB × ApiResult Bool :=
  match db.participants.find? (fun p => p.id == participant_id) with
  | none => (db, .err 404 "Participant not found")
  | some p =>
    if p.verified then (db, .err 400 "Already verified")
    else
      let p2 := { p with verified := true }
      let ps1 := updateFirst (fun q => q.id == participant_id) (fun _ => p2) db.participants
      let db1 := { db with participants := ps1 }
      let db2 := (add_verified_participant_to_raffle now db1 p2).1
      (db2, .ok true)

/-- reject_participant (app.py): 404 for an unknown id, else delete every
entry row of the participant (Entry.query.filter_by(participant_id=...)
.delete(), across all raffles) and the participant row itself. -/
def reject_participant (participant_id : ℕ) (db : DB) : DB × ApiResult Bool :=
  match db.participants.find? (fun p => p.id == participant_id) with
  | none => (db, .err 404 "Participant not found")
  | some _ =>
    ({ db with entries := db.entries.filter (fun e => e.participant_id != participant_id),
               participants := db.participants.filter (fun p => p.id != participant_id) },
     .ok true)

/-- trigger_draw (app.py /api/raffle/draw): run the draw; a None result is
turned into an HTTP 400 error response. -/
def trigger_draw (σ : ℕ → ℕ) (now : ℕ) (db : DB) : DB × ApiResult DrawResult :=
  let r := execute_raffle_draw σ now none db
  match r.2 with
  | some result => (r.1, .ok result)
  | none => (r.1, .err 400 "No active raffle to draw")

/-- check_and_execute_draw (app.py, the scheduler tick): if a pending raffle
exists and its draw time has passed, draw it by id; the result is
discarded. -/
def check_and_execute_draw (σ : ℕ → ℕ) (now : ℕ) (db : DB) : DB :=
  match db.raffles.find? raffleIsPending with
  | some raffle =>
    if raffle.draw_time ≤ now then (execute_raffle_draw σ now (some raffle.id) db).1 else db
  | none => db

/-- reset_system (app.py /api/admin/reset): delete every row of the four core
tables, then recreate a pending raffle. -/
def reset_system (now : ℕ) (db : DB) : DB :=
  let db1 := { db with winners := [], entries := [], raffles := [], participants := [] }
  (get_current_raffle now db1).1

/-- reset_timer (app.py): 400 without a pending raffle, else move the pending
raffle's draw time to the next half-hour boundary. -/
def reset_timer (now : ℕ) (db : DB) : DB × ApiResult Bool :=
  match db.raffles.find? raffleIsPending with
  | none => (db, .err 400 "No pending raffle")
  | some _ =>
    let rs := updateFirst raffleIsPending (fun r => { r with draw_time := nextDrawTime now }) db.raffles
    ({ db with raffles := rs }, .ok true)

/-- update_config (app.py): set each posted key. -/
def update_config (kvs : List (String × String)) (db : DB) : DB :=
  kvs.foldl (fun d kv => setConfig d kv.1 kv.2) db

/-- init_db (app.py): seed missing configuration defaults and ensure a
pending raffle exists. -/
def init_db (now : ℕ) (db : DB) : DB :=
  let d1 := if getConfig db "draw_interval" "" == "" then setConfig db "draw_interval" "60" else db
  let d2 := if getConfig d1 "min_wager" "" == "" then setConfig d1 "min_wager" "10" else d1
  let d3 := if getConfig d2 "max_wager" "" == "" then setConfig d2 "max_wager" "1000" else d2
  let d4 := if getConfig d3 "admin_pin" "" == "" then setConfig d3 "admin_pin" "1234" else d3
  (get_current_raffle now d4).1

/-- The empty database (db.create_all() on a fresh store). -/
def emptyDB : DB :=
  { configs := [], participants := [], raffles := [], entries := [], winners := [], nextId := 1 }

/-- The state right after application startup. -/
def initialDB (now : ℕ) : DB := init_db now emptyDB

/-- One atomic operation of the application (every mutating route, the
scheduler tick, and the read routes that lazily create the current raffle),
per the single-logical-writer model of the spec. -/
inductive Step : DB → DB → Prop where
  | ofCurrent (now : ℕ) (db : DB) : Step db (get_current_raffle now db).1
  | ofSignup (now : ℕ) (name phone : String) (wager : ℕ) (pin : String) (db : DB) :
      Step db (signup now name phone wager pin db).1
  | ofVerify (now pid : ℕ) (db : DB) : Step db (verify_participant now pid db).1
  | ofReject (pid : ℕ) (db : DB) : Step db (reject_participant pid db).1
  | ofDraw (σ : ℕ → ℕ) (now : ℕ) (rid : Option ℕ) (db : DB) :
      Step db (execute_raffle_draw σ now rid db).1
  | ofTick (σ : ℕ → ℕ) (now : ℕ) (db : DB) : Step db (check_and_execute_draw σ now db)
  | ofTrigger (σ : ℕ → ℕ) (now : ℕ) (db : DB) : Step db (trigger_draw σ now db).1
  | ofReset (now : ℕ) (db : DB) : Step db (reset_system now db)
  | ofResetTimer (now : ℕ) (db : DB) : Step db (reset_timer now db).1
  | ofConfig (kvs : List (String × String)) (db : DB) : Step db (update_config kvs db)

/-- Reachability from application startup. -/
def Reachable (db : DB) : Prop :=
  ∃ now0, Relation.ReflTransGen Step (initialDB now0) db

/-- The operations without reject_participant (used to state exactly which
operations preserve the pot/entries balance). -/
inductive StepNR : DB → DB → Prop where
  | ofCurrent (now : ℕ) (db : DB) : StepNR db (get_current_raffle now db).1
  | ofSignup (now : ℕ) (name phone : String) (wager : ℕ) (pin : String) (db : DB) :
      StepNR db (signup now name phone wager pin db).1
  | ofVerify (now pid : ℕ) (db : DB) : StepNR db (verify_participant now pid db).1
  | ofDraw (σ : ℕ → ℕ) (now : ℕ) (rid : Option ℕ) (db : DB) :
      StepNR db (execute_raffle_draw σ now rid db).1
  | ofTick (σ : ℕ → ℕ) (now : ℕ) (db : DB) : StepNR db (check_and_execute_draw σ now db)
  | ofTrigger (σ : ℕ → ℕ) (now : ℕ) (db : DB) : StepNR db (trigger_draw σ now db).1
  | ofReset (now : ℕ) (db : DB) : StepNR db (reset_system now db)
  | ofResetTimer (now : ℕ) (db : DB) : StepNR db (reset_timer now db).1
  | ofConfig (kvs : List (String × String)) (db : DB) : StepNR db (update_config kvs db)

/-- Reachability without ever rejecting a participant. -/
def ReachableNR (db : DB) : Prop :=
  ∃ now0, Relation.ReflTransGen StepNR (initialDB now0) db

/-- The pot/entries balance: every pending raffle's pot is ten times the sum
of its entry counts (one entry per 10 wagered). -/
def potBalanced (db : DB) : Prop :=
  ∀ r ∈ db.raffles, raffleIsPending r → r.total_pot = 10 * entrySum db r.id

/-- The invariants of reachable states, proved inductively over Step. -/
structure Inv (db : DB) : Prop where
  one_pending : pendingCount db = 1
  raffle_ids_nodup : (db.raffles.map (fun r => r.id)).Nodup
  raffle_ids_lt : ∀ r ∈ db.raffles, r.id < db.nextId
  part_ids_nodup : (db.participants.map (fun p => p.id)).Nodup
  part_ids_lt : ∀ p ∈ db.participants, p.id < db.nextId
  wager_min : ∀ p ∈ db.participants, 10 ≤ p.wager_amount
  wager_mod : ∀ p ∈ db.participants, p.wager_amount % 10 = 0
  all_verified : ∀ p ∈ db.participants, p.verified = true
  entry_pairs_nodup : (db.entries.map (fun e => (e.raffle_id, e.participant_id))).Nodup
  entry_count_pos : ∀ e ∈ db.entries, 1 ≤ e.entry_count
  entry_raffle_lt : ∀ e ∈ db.entries, e.raffle_id < db.nextId
  entry_part_exists : ∀ e ∈ db.entries, ∃ p ∈ db.participants, p.id = e.participant_id
  part_has_entry : ∀ r ∈ db.raffles, raffleIsPending r →
    ∀ p ∈ db.participants, ∃ e ∈ db.entries, e.raffle_id = r.id ∧ e.participant_id = p.id
  winner_raffle_lt : ∀ w ∈ db.winners, w.raffle_id < db.nextId
  no_pending_winner : ∀ r ∈ db.raffles, raffleIsPending r →
    ∀ w ∈ db.winners, w.raffle_id ≠ r.id

/-- The invariant fields that do not mention how many raffles are pending:
what survives while a draw is in flight and what a rollover needs. -/
structure Core (db : DB) : Prop where
  raffle_ids_nodup : (db.raffles.map (fun r => r.id)).Nodup
  raffle_ids_lt : ∀ r ∈ db.raffles, r.id < db.nextId
  part_ids_nodup : (db.participants.map (fun p => p.id)).Nodup
  part_ids_lt : ∀ p ∈ db.participants, p.id < db.nextId
  wager_min : ∀ p ∈ db.participants, 10 ≤ p.wager_amount
  wager_mod : ∀ p ∈ db.participants, p.wager_amount % 10 = 0
  all_verified : ∀ p ∈ db.participants, p.verified = true
  entry_pairs_nodup : (db.entries.map (fun e => (e.raffle_id, e.participant_id))).Nodup
  entry_count_pos : ∀ e ∈ db.entries, 1 ≤ e.entry_count
  entry_raffle_lt : ∀ e ∈ db.entries, e.raffle_id < db.nextId
  entry_part_exists : ∀ e ∈ db.entries, ∃ p ∈ db.participants, p.id = e.participant_id
  winner_raffle_lt : ∀ w ∈ db.winners, w.raffle_id < db.nextId

/-- The deterministic oracle used by the concrete witnesses: always pick
index 0. -/
def sigma0 : ℕ → ℕ := fun _ => 0

/-- Concrete run: startup, then set the configuration keys the claims speak
about (max_winners, a payout fraction table, house_rate: the code never
reads them), then two signups of 50 each. -/
def dbTwo : DB :=
  (signup 0 "bob" "0802" 50 "1234"
    ((signup 0 "alice" "0801" 50 "1234"
      (update_config
        [("max_winners", "5"), ("payout_fractions", "0.40,0.25,0.18,0.10,0.07"),
         ("house_rate", "0.10")]
        (initialDB 0))).1)).1

/-- The draw executed on dbTwo. -/
def dbTwoDraw : DB × Option DrawResult := execute_raffle_draw sigma0 0 none dbTwo

/-- Concrete run: startup, then one signup of 10 (participant id 2, one entry
in the pending raffle 1, pot 10). -/
def dbOne : DB := (signup 0 "alice" "0801" 10 "1234" (initialDB 0)).1

/-- Concrete run for the pot-balance counterexample: startup, one signup of
10, then reject that participant. -/
def dbRejected : DB := (reject_participant 2 dbOne).1

/-- Concrete run for the completed-entries counterexample: startup, one
signup of 10, a completed draw (so raffle 1 is completed and keeps its entry),
giving a state with an entry row attached to a completed raffle. -/
def dbDone : DB := (execute_raffle_draw sigma0 0 none dbOne).1

/-- dbDone after rejecting the only participant. -/
def dbDoneRejected : DB := (reject_participant 2 dbDone).1

/-- A state whose only raffle is completed: what execute_raffle_draw sees
when there is nothing to draw. -/
def dbNonePending : DB :=
  { configs := [("admin_pin", "1234")], participants := [],
    raffles := [{ id := 1, draw_time := 0, total_pot := 0, status := "completed" }],
    entries := [], winners := [], nextId := 2 }

/-! ### Toolbox: updateFirst, find? and countP -/

theorem updateFirst_cons_pos {α : Type} (p : α → Bool) (f : α → α) (a : α) (l : List α)
    (h : p a = true) : updateFirst p f (a :: l) = f a :: l := by
  simp [updateFirst, h]

theorem updateFirst_cons_neg {α : Type} (p : α → Bool) (f : α → α) (a : α) (l : List α)
    (h : p a = false) : updateFirst p f (a :: l) = a :: updateFirst p f l := by
  simp [updateFirst, h]

theorem updateFirst_of_find?_eq_none {α : Type} (p : α → Bool) (f : α → α) {l : List α}
    (h : l.find? p = none) : updateFirst p f l = l := by
  induction l with
  | nil => rfl
  | cons a l ih =>
    rw [List.find?_eq_none] at h
    have ha : p a = false := by
      have h1 := h a (by simp)
      simpa using h1
    rw [updateFirst_cons_neg _ _ _ _ ha]
    have h2 : l.find? p = none := by
      rw [List.find?_eq_none]
      intro x hx
      exact h x (by simp [hx])
    rw [ih h2]

theorem map_updateFirst {α β : Type} (p : α → Bool) (f : α → α) (g : α → β) (l : List α)
    (h : ∀ a, g (f a) = g a) : (updateFirst p f l).map g = l.map g := by
  induction l with
  | nil => rfl
  | cons a l ih =>
    by_cases hpa : p a = true
    · rw [updateFirst_cons_pos _ _ _ _ hpa]
      simp [h]
    · rw [updateFirst_cons_neg _ _ _ _ (by simpa using hpa)]
      simp [ih]

theorem countP_updateFirst {α : Type} (p q : α → Bool) (f : α → α) (l : List α)
    (h : ∀ a, q (f a) = q a) : (updateFirst p f l).countP q = l.countP q := by
  induction l with
  | nil => rfl
  | cons a l ih =>
    by_cases hpa : p a = true
    · rw [updateFirst_cons_pos _ _ _ _ hpa]
      simp [List.countP_cons, h]
    · rw [updateFirst_cons_neg _ _ _ _ (by simpa using hpa)]
      simp [List.countP_cons, ih]

theorem length_updateFirst {α : Type} (p : α → Bool) (f : α → α) (l : List α) :
    (updateFirst p f l).length = l.length := by
  induction l with
  | nil => rfl
  | cons a l ih =>
    by_cases hpa : p a = true
    · rw [updateFirst_cons_pos _ _ _ _ hpa]
      simp
    · rw [updateFirst_cons_neg _ _ _ _ (by simpa using hpa)]
      simp [ih]

theorem mem_updateFirst {α : Type} {p : α → Bool} {f : α → α} {l : List α} {b : α}
    (hb : b ∈ updateFirst p f l) : b ∈ l ∨ ∃ a, a ∈ l ∧ p a = true ∧ b = f a := by
  induction l with
  | nil => simp [updateFirst] at hb
  | cons a l ih =>
    by_cases hpa : p a = true
    · rw [updateFirst_cons_pos _ _ _ _ hpa] at hb
      rcases List.mem_cons.mp hb with h1 | h1
      · exact Or.inr ⟨a, by simp, hpa, h1⟩
      · exact Or.inl (List.mem_cons.mpr (Or.inr h1))
    · rw [updateFirst_cons_neg _ _ _ _ (by simpa using hpa)] at hb
      rcases List.mem_cons.mp hb with h1 | h1
      · exact Or.inl (by simp [h1])
      · rcases ih h1 with h2 | ⟨c, hc, hpc, hbc⟩
        · exact Or.inl (by simp [h2])
        · exact Or.inr ⟨c, by simp [hc], hpc, hbc⟩

theorem updateFirst_decomp {α : Type} {p : α → Bool} (f : α → α) {l : List α} {a : α}
    (h : l.find? p = some a) :
    ∃ l1 l2, l = l1 ++ a :: l2 ∧ (∀ x ∈ l1, p x = false) ∧
      updateFirst p f l = l1 ++ f a :: l2 := by
  induction l with
  | nil => simp [List.find?] at h
  | cons b l ih =>
    by_cases hpb : p b = true
    · rw [List.find?_cons_of_pos _ hpb] at h
      obtain rfl : b = a := by injection h
      exact ⟨[], l, by simp, by simp, by rw [updateFirst_cons_pos _ _ _ _ hpb]; simp⟩
    · rw [List.find?_cons_of_neg _ hpb] at h
      obtain ⟨l1, l2, hl, hl1, hu⟩ := ih h
      refine ⟨b :: l1, l2, by simp [hl], ?_, ?_⟩
      · intro x hx
        rcases List.mem_cons.mp hx with rfl | hx2
        · simpa using hpb
        · exact hl1 x hx2
      · rw [updateFirst_cons_neg _ _ _ _ (by simpa using hpb), hu]
        simp

theorem filter_updateFirst {α : Type} (p q : α → Bool) (f : α → α) (l : List α)
    (hpq : ∀ a, p a = true → q a = true) (hfq : ∀ a, q (f a) = q a) :
    (updateFirst p f l).filter q = updateFirst p f (l.filter q) := by
  induction l with
  | nil => rfl
  | cons a l ih =>
    by_cases hpa : p a = true
    · have hqa : q a = true := hpq a hpa
      rw [updateFirst_cons_pos _ _ _ _ hpa]
      rw [List.filter_cons_of_pos (by rw [hfq]; exact hqa)]
      rw [List.filter_cons_of_pos hqa]
      rw [updateFirst_cons_pos _ _ _ _ hpa]
    · rw [updateFirst_cons_neg _ _ _ _ (by simpa using hpa)]
      by_cases hqa : q a = true
      · rw [List.filter_cons_of_pos hqa, List.filter_cons_of_pos hqa]
        rw [updateFirst_cons_neg _ _ _ _ (by simpa using hpa), ih]
      · rw [List.filter_cons_of_neg (by simpa using hqa),
          List.filter_cons_of_neg (by simpa using hqa), ih]

theorem sum_map_updateFirst {α : Type} (p : α → Bool) (f : α → α) (g : α → ℕ) (c : ℕ)
    (l : List α) (hg : ∀ a, p a = true → g (f a) = g a + c)
    (hex : ∃ a ∈ l, p a = true) :
    ((updateFirst p f l).map g).sum = (l.map g).sum + c := by
  induction l with
  | nil => simp at hex
  | cons a l ih =>
    by_cases hpa : p a = true
    · rw [updateFirst_cons_pos _ _ _ _ hpa]
      simp [hg a hpa]
      omega
    · rw [updateFirst_cons_neg _ _ _ _ (by simpa using hpa)]
      have hex2 : ∃ b ∈ l, p b = true := by
        obtain ⟨b, hb, hpb⟩ := hex
        rcases List.mem_cons.mp hb with rfl | hb2
        · exact absurd hpb hpa
        · exact ⟨b, hb2, hpb⟩
      simp [ih hex2]
      omega

theorem exists_find?_of_countP_pos {α : Type} {q : α → Bool} {l : List α}
    (h : 0 < l.countP q) : ∃ a, l.find? q = some a ∧ q a = true ∧ a ∈ l := by
  obtain ⟨x, hx, hqx⟩ := List.countP_pos.mp h
  have h2 : (l.find? q).isSome = true := List.find?_isSome.mpr ⟨x, hx, hqx⟩
  obtain ⟨a, ha⟩ := Option.isSome_iff_exists.mp h2
  exact ⟨a, ha, List.find?_some ha, List.mem_of_find?_eq_some ha⟩

theorem find?_eq_self_of_nodup {α : Type} (g : α → ℕ) {l : List α}
    (h : (l.map g).Nodup) {a : α} (ha : a ∈ l) :
    l.find? (fun x => g x == g a) = some a := by
  induction l with
  | nil => simp at ha
  | cons b l ih =>
    rw [List.map_cons] at h
    have hcons := List.nodup_cons.mp h
    rcases List.mem_cons.mp ha with rfl | ha2
    · exact List.find?_cons_of_pos _ (by simp)
    · have hb : g b ≠ g a := by
        intro he
        exact hcons.1 (he ▸ List.mem_map_of_mem g ha2)
      rw [List.find?_cons_of_neg _ (by simpa using hb)]
      exact ih hcons.2 ha2

/-! ### get_current_raffle characterisation and the rollover invariants -/

theorem inv_core {db : DB} (h : Inv db) : Core db :=
  ⟨h.raffle_ids_nodup, h.raffle_ids_lt, h.part_ids_nodup, h.part_ids_lt, h.wager_min,
   h.wager_mod, h.all_verified, h.entry_pairs_nodup, h.entry_count_pos, h.entry_raffle_lt,
   h.entry_part_exists, h.winner_raffle_lt⟩

theorem gcr_of_found {now : ℕ} {db : DB} {r : Raffle}
    (h : db.raffles.find? raffleIsPending = some r) :
    get_current_raffle now db = (db, r) := by
  unfold get_current_raffle
  rw [h]

theorem find?_pending_of_one {db : DB} (h : pendingCount db = 1) :
    ∃ r, db.raffles.find? raffleIsPending = some r ∧ raffleIsPending r = true ∧
      r ∈ db.raffles := by
  have h0 : 0 < db.raffles.countP raffleIsPending := by
    unfold pendingCount at h
    omega
  exact exists_find?_of_countP_pos h0

theorem gcr_none_snd {now : ℕ} {db : DB}
    (hnone : db.raffles.find? raffleIsPending = none) :
    (get_current_raffle now db).2 =
      { id := db.nextId, draw_time := nextDrawTime now,
        total_pot := ((db.participants.filter (fun p => p.verified)).map
          (fun p => p.wager_amount)).sum,
        status := "pending" } := by
  unfold get_current_raffle
  rw [hnone]

/-- The new entry rows of a rollover. -/
theorem gcr_none_fst {now : ℕ} {db : DB}
    (hnone : db.raffles.find? raffleIsPending = none) :
    (get_current_raffle now db).1 =
      { db with
        raffles := db.raffles ++ [(get_current_raffle now db).2],
        entries := db.entries ++ (db.participants.filter (fun p => p.verified)).map
          (fun p => ({ raffle_id := db.nextId, participant_id := p.id,
                       entry_count := p.wager_amount / 10 } : Entry)),
        nextId := db.nextId + 1 } := by
  conv in (get_current_raffle now db).2 => rw [gcr_none_snd hnone]
  unfold get_current_raffle
  rw [hnone]

theorem pendingCount_eq_zero_of_find?_none {db : DB}
    (hnone : db.raffles.find? raffleIsPending = none) : pendingCount db = 0 := by
  unfold pendingCount
  exact List.countP_eq_zero.mpr (List.find?_eq_none.mp hnone)

theorem inv_rollover {now : ℕ} {db : DB} (hc : Core db)
    (hnone : db.raffles.find? raffleIsPending = none) :
    Inv (get_current_raffle now db).1 := by
  have h0 : pendingCount db = 0 := pendingCount_eq_zero_of_find?_none hnone
  have hall : ∀ r ∈ db.raffles, raffleIsPending r = false := by
    intro r hr
    have := List.countP_eq_zero.mp h0 r hr
    simpa using this
  rw [gcr_none_fst hnone]
  rw [gcr_none_snd hnone]
  constructor
  case one_pending =>
    unfold pendingCount at h0 ⊢
    simp only [List.countP_append]
    rw [h0]
    simp [List.countP_cons, raffleIsPending]
  case raffle_ids_nodup =>
    simp only [List.map_append, List.map_cons, List.map_nil]
    rw [List.nodup_append]
    refine ⟨hc.raffle_ids_nodup, by simp, ?_⟩
    intro x hx hx2
    simp at hx2
    obtain ⟨r, hr, hrid⟩ := List.mem_map.mp hx
    have := hc.raffle_ids_lt r hr
    omega
  case raffle_ids_lt =>
    intro r hr
    dsimp only at hr ⊢
    rcases List.mem_append.mp hr with h1 | h1
    · have := hc.raffle_ids_lt r h1
      omega
    · simp at h1
      subst h1
      simp
  case part_ids_nodup => exact hc.part_ids_nodup
  case part_ids_lt =>
    intro p hp
    dsimp only at hp ⊢
    have := hc.part_ids_lt p hp
    omega
  case wager_min => exact hc.wager_min
  case wager_mod => exact hc.wager_mod
  case all_verified => exact hc.all_verified
  case entry_pairs_nodup =>
    simp only [List.map_append, List.map_map]
    rw [List.nodup_append]
    refine ⟨hc.entry_pairs_nodup, ?_, ?_⟩
    · apply List.Nodup.of_map Prod.snd
      simp only [List.map_map]
      have hsub : ((db.participants.filter (fun p => p.verified)).map
          (fun p => p.id)).Sublist (db.participants.map (fun p => p.id)) :=
        List.Sublist.map _ (List.filter_sublist _)
      have := hsub.nodup hc.part_ids_nodup
      convert this using 2
    · intro x hx hx2
      obtain ⟨e, he, hex⟩ := List.mem_map.mp hx
      obtain ⟨p, hp, hpx⟩ := List.mem_map.mp hx2
      have h1 := hc.entry_raffle_lt e he
      have h2 : x.1 = e.raffle_id := by rw [← hex]
      have h3 : x.1 = db.nextId := by
        rw [← hpx]
        simp [Function.comp]
      omega
  case entry_count_pos =>
    intro e he
    dsimp only at he
    rcases List.mem_append.mp he with h1 | h1
    · exact hc.entry_count_pos e h1
    · obtain ⟨p, hp, hpe⟩ := List.mem_map.mp h1
      have hw := hc.wager_min p (List.mem_filter.mp hp).1
      rw [← hpe]
      simpa using (Nat.one_le_div_iff (by omega)).mpr hw
  case entry_raffle_lt =>
    intro e he
    dsimp only at he ⊢
    rcases List.mem_append.mp he with h1 | h1
    · have := hc.entry_raffle_lt e h1
      omega
    · obtain ⟨p, hp, hpe⟩ := List.mem_map.mp h1
      rw [← hpe]
      simp
  case entry_part_exists =>
    intro e he
    dsimp only at he ⊢
    rcases List.mem_append.mp he with h1 | h1
    · exact hc.entry_part_exists e h1
    · obtain ⟨p, hp, hpe⟩ := List.mem_map.mp h1
      exact ⟨p, (List.mem_filter.mp hp).1, by rw [← hpe]⟩
  case part_has_entry =>
    intro r hr hpend p hp
    dsimp only at hr hp ⊢
    rcases List.mem_append.mp hr with h1 | h1
    · rw [hall r h1] at hpend
      exact absurd hpend (by simp)
    · simp at h1
      subst h1
      refine ⟨{ raffle_id := db.nextId, participant_id := p.id,
                entry_count := p.wager_amount / 10 }, ?_, by simp, by simp⟩
      apply List.mem_append.mpr
      right
      apply List.mem_map_of_mem
      exact List.mem_filter.mpr ⟨hp, by simp [hc.all_verified p hp]⟩
  case winner_raffle_lt =>
    intro w hw
    dsimp only at hw ⊢
    have := hc.winner_raffle_lt w hw
    omega
  case no_pending_winner =>
    intro r hr hpend w hw
    dsimp only at hr hw ⊢
    rcases List.mem_append.mp hr with h1 | h1
    · rw [hall r h1] at hpend
      exact absurd hpend (by simp)
    · simp at h1
      subst h1
      have := hc.winner_raffle_lt w hw
      dsimp only
      omega

theorem potBalanced_rollover {now : ℕ} {db : DB} (hc : Core db)
    (hnone : db.raffles.find? raffleIsPending = none) :
    potBalanced (get_current_raffle now db).1 := by
  have h0 : pendingCount db = 0 := pendingCount_eq_zero_of_find?_none hnone
  have hall : ∀ r ∈ db.raffles, raffleIsPending r = false := by
    intro r hr
    have := List.countP_eq_zero.mp h0 r hr
    simpa using this
  unfold potBalanced
  rw [gcr_none_fst hnone, gcr_none_snd hnone]
  intro r hr hpend
  dsimp only at hr ⊢
  rcases List.mem_append.mp hr with h1 | h1
  · rw [hall r h1] at hpend
    exact absurd hpend (by simp)
  · simp at h1
    subst h1
    dsimp only
    unfold entrySum entriesFor
    dsimp only
    rw [List.filter_append]
    have hold : db.entries.filter (fun e => e.raffle_id == db.nextId) = [] := by
      rw [List.filter_eq_nil_iff]
      intro e he hbe
      have h2 := hc.entry_raffle_lt e he
      rw [beq_iff_eq] at hbe
      omega
    have hnew : ((db.participants.filter (fun p => p.verified)).map
        (fun p => ({ raffle_id := db.nextId, participant_id := p.id,
                     entry_count := p.wager_amount / 10 } : Entry))).filter
          (fun e => e.raffle_id == db.nextId) =
        (db.participants.filter (fun p => p.verified)).map
          (fun p => ({ raffle_id := db.nextId, participant_id := p.id,
                       entry_count := p.wager_amount / 10 } : Entry)) := by
      rw [List.filter_eq_self]
      intro e he
      obtain ⟨p, hp, hpe⟩ := List.mem_map.mp he
      rw [← hpe]
      simp
    rw [hold, hnew]
    simp only [List.nil_append, List.map_map]
    have hcongr : (db.participants.filter (fun p => p.verified)).map
        (fun p => p.wager_amount) =
        (db.participants.filter (fun p => p.verified)).map
          (fun p => 10 * (p.wager_amount / 10)) := by
      apply List.map_congr_left
      intro p hp
      have hmod := hc.wager_mod p (List.mem_filter.mp hp).1
      omega
    rw [hcongr]
    have hmul := List.sum_map_mul_left (db.participants.filter (fun p => p.verified))
      (fun p => p.wager_amount / 10) 10
    rw [hmul]
    rfl

theorem inv_gcr {now : ℕ} {db : DB} (h : Inv db) : Inv (get_current_raffle now db).1 := by
  obtain ⟨r, hfind, _, _⟩ := find?_pending_of_one h.one_pending
  rw [gcr_of_found hfind]
  exact h

theorem potBalanced_gcr {now : ℕ} {db : DB} (h : Inv db) (hp : potBalanced db) :
    potBalanced (get_current_raffle now db).1 := by
  obtain ⟨r, hfind, _, _⟩ := find?_pending_of_one h.one_pending
  rw [gcr_of_found hfind]
  exact hp

theorem find?_append_cons {α : Type} (p : α → Bool) (l1 l2 : List α) (a : α)
    (h1 : ∀ x ∈ l1, p x = false) (ha : p a = true) :
    (l1 ++ a :: l2).find? p = some a := by
  induction l1 with
  | nil => simpa using List.find?_cons_of_pos _ ha
  | cons b l1 ih =>
    rw [List.cons_append, List.find?_cons_of_neg _ (by simp [h1 b (by simp)])]
    exact ih (fun x hx => h1 x (by simp [hx]))

theorem updateFirst_append_cons {α : Type} (p : α → Bool) (f : α → α) (l1 l2 : List α) (a : α)
    (h1 : ∀ x ∈ l1, p x = false) (ha : p a = true) :
    updateFirst p f (l1 ++ a :: l2) = l1 ++ f a :: l2 := by
  induction l1 with
  | nil =>
    simpa using updateFirst_cons_pos p f a l2 ha
  | cons b l1 ih =>
    rw [List.cons_append, updateFirst_cons_neg _ _ _ _ (h1 b (by simp))]
    rw [ih (fun x hx => h1 x (by simp [hx]))]
    simp

theorem find?_none_of_pendingCount_zero {db : DB} (h : pendingCount db = 0) :
    db.raffles.find? raffleIsPending = none := by
  rw [List.find?_eq_none]
  exact List.countP_eq_zero.mp h

/-- Core survives any status rewrite of one raffle row. -/
theorem core_setRaffleStatus {db : DB} (rid : ℕ) (s : String) (hc : Core db) :
    Core (setRaffleStatus rid s db) := by
  constructor
  case raffle_ids_nodup =>
    unfold setRaffleStatus
    dsimp only
    rw [map_updateFirst (fun r => r.id == rid) (fun r => { r with status := s })
      (fun r => r.id) db.raffles (fun a => rfl)]
    exact hc.raffle_ids_nodup
  case raffle_ids_lt =>
    intro r hr
    unfold setRaffleStatus at hr
    dsimp only at hr ⊢
    rcases mem_updateFirst hr with h1 | ⟨a, ha, _, rfl⟩
    · exact hc.raffle_ids_lt r h1
    · exact hc.raffle_ids_lt a ha
  case part_ids_nodup => exact hc.part_ids_nodup
  case part_ids_lt => exact hc.part_ids_lt
  case wager_min => exact hc.wager_min
  case wager_mod => exact hc.wager_mod
  case all_verified => exact hc.all_verified
  case entry_pairs_nodup => exact hc.entry_pairs_nodup
  case entry_count_pos => exact hc.entry_count_pos
  case entry_raffle_lt => exact hc.entry_raffle_lt
  case entry_part_exists => exact hc.entry_part_exists
  case winner_raffle_lt => exact hc.winner_raffle_lt

/-- Decomposition of the raffle table around a raffle with a unique id. -/
theorem raffles_decomp_of_mem {db : DB} {r : Raffle}
    (hnodup : (db.raffles.map (fun x => x.id)).Nodup) (hmem : r ∈ db.raffles) :
    ∃ l1 l2, db.raffles = l1 ++ r :: l2 ∧ (∀ x ∈ l1, (x.id == r.id) = false) ∧
      (∀ x ∈ l1, x.id ≠ r.id) ∧ (∀ x ∈ l2, x.id ≠ r.id) := by
  have hfind : db.raffles.find? (fun x => x.id == r.id) = some r :=
    find?_eq_self_of_nodup (fun x => x.id) hnodup hmem
  obtain ⟨l1, l2, hl, hl1, _⟩ := updateFirst_decomp id hfind
  refine ⟨l1, l2, hl, hl1, fun x hx => by simpa using hl1 x hx, ?_⟩
  intro x hx he
  rw [hl] at hnodup
  simp only [List.map_append, List.map_cons] at hnodup
  rw [List.nodup_append] at hnodup
  have h2 := hnodup.2.1
  rw [List.nodup_cons] at h2
  exact h2.1 (he ▸ List.mem_map_of_mem (fun x => x.id) hx)

/-! ### The draw: selection-loop facts and invariant preservation -/

theorem drawTarget_mem {rid : Option ℕ} {db : DB} {r : Raffle}
    (h : drawTarget rid db = some r) : r ∈ db.raffles := by
  unfold drawTarget at h
  cases rid with
  | some i => exact List.mem_of_find?_eq_some h
  | none => exact List.mem_of_find?_eq_some h

theorem entriesFor_setRaffleStatus (rid : ℕ) (s : String) (db : DB) (x : ℕ) :
    entriesFor (setRaffleStatus rid s db) x = entriesFor db x := rfl

theorem countP_zero_updateFirst {α : Type} {p q : α → Bool} {f : α → α} {l : List α}
    (h0 : l.countP q = 0) (hf : ∀ a, q (f a) = false) :
    (updateFirst p f l).countP q = 0 := by
  rw [List.countP_eq_zero] at h0 ⊢
  intro a ha
  rcases mem_updateFirst ha with h1 | ⟨b, hb, _, rfl⟩
  · exact h0 a h1
  · simp [hf b]

theorem pendingCount_complete {db : DB} {r : Raffle} (hone : pendingCount db = 1)
    (hnodup : (db.raffles.map (fun x => x.id)).Nodup) (hmem : r ∈ db.raffles)
    (hpend : raffleIsPending r = true) (s : String) (hs : (s == "pending") = false) :
    pendingCount (setRaffleStatus r.id s db) = 0 := by
  obtain ⟨l1, l2, hl, hbeq, _, _⟩ := raffles_decomp_of_mem hnodup hmem
  unfold setRaffleStatus pendingCount
  dsimp only
  rw [hl, updateFirst_append_cons _ _ _ _ _ hbeq (by simp)]
  unfold pendingCount at hone
  rw [hl] at hone
  simp only [List.countP_append, List.countP_cons] at hone ⊢
  rw [hpend] at hone
  have h2 : raffleIsPending { r with status := s } = false := by
    unfold raffleIsPending
    exact hs
  rw [h2]
  have e1 : (if (true : Bool) = true then 1 else 0) = 1 := by simp
  have e2 : (if (false : Bool) = true then 1 else 0) = 0 := by simp
  rw [e1] at hone
  rw [e2]
  omega

theorem selectWinners_raffle_id (σ : ℕ → ℕ) (parts : List Participant) (pp rid : ℕ) :
    ∀ (dists : List ℚ) (pos k : ℕ) (sel rem : List ℕ),
      ∀ w ∈ (selectWinners σ parts pp rid dists pos k sel rem).1, w.raffle_id = rid := by
  intro dists
  induction dists with
  | nil =>
    intro pos k sel rem w hw
    simp [selectWinners] at hw
  | cons dist rest ih =>
    intro pos k sel rem w hw
    rw [selectWinners] at hw
    by_cases hemp : rem.isEmpty = true
    · rw [if_pos hemp] at hw
      simp at hw
    · rw [if_neg hemp] at hw
      set t := retrySelect σ sel 100 (choiceAt σ k rem) (k + 1) rem with ht
      by_cases hsel : sel.contains t.1 = true
      · rw [if_pos hsel] at hw
        exact ih _ _ _ _ w hw
      · rw [if_neg hsel] at hw
        cases hfind : parts.find? (fun p => p.id == t.1) with
        | none =>
          rw [hfind] at hw
          exact ih _ _ _ _ w hw
        | some p =>
          rw [hfind] at hw
          dsimp only at hw
          rcases List.mem_cons.mp hw with rfl | hw2
          · rfl
          · exact ih _ _ _ _ w hw2

theorem selectWinners_nodup (σ : ℕ → ℕ) (parts : List Participant) (pp rid : ℕ) :
    ∀ (dists : List ℚ) (pos k : ℕ) (sel rem : List ℕ),
      (∀ w ∈ (selectWinners σ parts pp rid dists pos k sel rem).1, w.participant_id ∉ sel) ∧
      ((selectWinners σ parts pp rid dists pos k sel rem).1.map
        (fun w => w.participant_id)).Nodup := by
  intro dists
  induction dists with
  | nil =>
    intro pos k sel rem
    constructor
    · intro w hw
      simp [selectWinners] at hw
    · simp [selectWinners]
  | cons dist rest ih =>
    intro pos k sel rem
    rw [selectWinners]
    by_cases hemp : rem.isEmpty = true
    · rw [if_pos hemp]
      constructor
      · intro w hw
        simp at hw
      · simp
    · rw [if_neg hemp]
      set t := retrySelect σ sel 100 (choiceAt σ k rem) (k + 1) rem with ht
      by_cases hsel : sel.contains t.1 = true
      · rw [if_pos hsel]
        exact ih _ _ _ _
      · rw [if_neg hsel]
        cases hfind : parts.find? (fun p => p.id == t.1) with
        | none => exact ih _ _ _ _
        | some p =>
          dsimp only
          have hpid : p.id = t.1 := by
            have := List.find?_some hfind
            simpa using this
          have hnotsel : t.1 ∉ sel := by
            simpa using hsel
          obtain ⟨htail1, htail2⟩ := ih (pos + 1) t.2.2 (t.1 :: sel)
            (t.2.1.filter (fun e => e != t.1))
          constructor
          · intro w hw
            rcases List.mem_cons.mp hw with rfl | hw2
            · dsimp only
              rw [hpid]
              exact hnotsel
            · have := htail1 w hw2
              intro hmem
              exact this (List.mem_cons.mpr (Or.inr hmem))
          · rw [List.map_cons, List.nodup_cons]
            refine ⟨?_, htail2⟩
            dsimp only
            rw [hpid]
            intro hmem
            obtain ⟨w, hw, hwid⟩ := List.mem_map.mp hmem
            have := htail1 w hw
            exact this (hwid ▸ List.mem_cons.mpr (Or.inl rfl))

theorem core_append_winners {db : DB} (hc : Core db) {ws : List Winner}
    (hws : ∀ w ∈ ws, w.raffle_id < db.nextId) :
    Core { db with winners := db.winners ++ ws } := by
  constructor
  case raffle_ids_nodup => exact hc.raffle_ids_nodup
  case raffle_ids_lt => exact hc.raffle_ids_lt
  case part_ids_nodup => exact hc.part_ids_nodup
  case part_ids_lt => exact hc.part_ids_lt
  case wager_min => exact hc.wager_min
  case wager_mod => exact hc.wager_mod
  case all_verified => exact hc.all_verified
  case entry_pairs_nodup => exact hc.entry_pairs_nodup
  case entry_count_pos => exact hc.entry_count_pos
  case entry_raffle_lt => exact hc.entry_raffle_lt
  case entry_part_exists => exact hc.entry_part_exists
  case winner_raffle_lt =>
    intro w hw
    dsimp only at hw ⊢
    rcases List.mem_append.mp hw with h1 | h1
    · exact hc.winner_raffle_lt w h1
    · exact hws w h1

theorem draw_fst_inv {σ : ℕ → ℕ} {now : ℕ} {rid : Option ℕ} {db : DB} (h : Inv db) :
    Inv (execute_raffle_draw σ now rid db).1 := by
  unfold execute_raffle_draw
  cases hT : drawTarget rid db with
  | none => exact h
  | some raffle =>
    dsimp only
    by_cases hpend : raffleIsPending raffle = true
    · rw [if_pos hpend]
      have hmem := drawTarget_mem hT
      have hc1 : Core (setRaffleStatus raffle.id "drawing" db) :=
        core_setRaffleStatus _ _ (inv_core h)
      have h0 : pendingCount (setRaffleStatus raffle.id "drawing" db) = 0 :=
        pendingCount_complete h.one_pending h.raffle_ids_nodup hmem hpend _ (by decide)
      have hfcomp : ∀ a : Raffle, raffleIsPending { a with status := "completed" } = false := by
        intro a
        rfl
      by_cases hemp : (entriesFor (setRaffleStatus raffle.id "drawing" db) raffle.id).isEmpty = true
      · rw [if_pos hemp]
        have hc2 : Core (setRaffleStatus raffle.id "completed"
            (setRaffleStatus raffle.id "drawing" db)) :=
          core_setRaffleStatus _ _ hc1
        have h02 : pendingCount (setRaffleStatus raffle.id "completed"
            (setRaffleStatus raffle.id "drawing" db)) = 0 :=
          countP_zero_updateFirst h0 hfcomp
        exact inv_rollover hc2 (find?_none_of_pendingCount_zero h02)
      · rw [if_neg hemp]
        by_cases hwc : (min 2 (weightedEntries (entriesFor
            (setRaffleStatus raffle.id "drawing" db) raffle.id)).dedup.length == 0) = true
        · rw [if_pos hwc]
          have hc2 : Core (setRaffleStatus raffle.id "completed"
              (setRaffleStatus raffle.id "drawing" db)) :=
            core_setRaffleStatus _ _ hc1
          have h02 : pendingCount (setRaffleStatus raffle.id "completed"
              (setRaffleStatus raffle.id "drawing" db)) = 0 :=
            countP_zero_updateFirst h0 hfcomp
          exact inv_rollover hc2 (find?_none_of_pendingCount_zero h02)
        · rw [if_neg hwc]
          have hws : ∀ w ∈ (selectWinners σ (setRaffleStatus raffle.id "drawing" db).participants
              (raffle.total_pot - houseCut raffle.total_pot) raffle.id
              (distributionsFor (min 2 (weightedEntries (entriesFor
                (setRaffleStatus raffle.id "drawing" db) raffle.id)).dedup.length)) 1 0 []
              (weightedEntries (entriesFor (setRaffleStatus raffle.id "drawing" db) raffle.id))).1,
              w.raffle_id < (setRaffleStatus raffle.id "drawing" db).nextId := by
            intro w hw
            have hr := selectWinners_raffle_id _ _ _ _ _ _ _ _ _ w hw
            rw [hr]
            exact h.raffle_ids_lt raffle hmem
          have hc2 : Core { setRaffleStatus raffle.id "drawing" db with
              winners := (setRaffleStatus raffle.id "drawing" db).winners ++
                (selectWinners σ (setRaffleStatus raffle.id "drawing" db).participants
                  (raffle.total_pot - houseCut raffle.total_pot) raffle.id
                  (distributionsFor (min 2 (weightedEntries (entriesFor
                    (setRaffleStatus raffle.id "drawing" db) raffle.id)).dedup.length)) 1 0 []
                  (weightedEntries (entriesFor (setRaffleStatus raffle.id "drawing" db)
                    raffle.id))).1 } :=
            core_append_winners hc1 hws
          have hc3 : Core (setRaffleStatus raffle.id "completed"
              { setRaffleStatus raffle.id "drawing" db with
                winners := (setRaffleStatus raffle.id "drawing" db).winners ++
                  (selectWinners σ (setRaffleStatus raffle.id "drawing" db).participants
                    (raffle.total_pot - houseCut raffle.total_pot) raffle.id
                    (distributionsFor (min 2 (weightedEntries (entriesFor
                      (setRaffleStatus raffle.id "drawing" db) raffle.id)).dedup.length)) 1 0 []
                    (weightedEntries (entriesFor (setRaffleStatus raffle.id "drawing" db)
                      raffle.id))).1 }) :=
            core_setRaffleStatus _ _ hc2
          have h03 : pendingCount (setRaffleStatus raffle.id "completed"
              { setRaffleStatus raffle.id "drawing" db with
                winners := (setRaffleStatus raffle.id "drawing" db).winners ++
                  (selectWinners σ (setRaffleStatus raffle.id "drawing" db).participants
                    (raffle.total_pot - houseCut raffle.total_pot) raffle.id
                    (distributionsFor (min 2 (weightedEntries (entriesFor
                      (setRaffleStatus raffle.id "drawing" db) raffle.id)).dedup.length)) 1 0 []
                    (weightedEntries (entriesFor (setRaffleStatus raffle.id "drawing" db)
                      raffle.id))).1 }) = 0 :=
            countP_zero_updateFirst h0 hfcomp
          exact inv_rollover hc3 (find?_none_of_pendingCount_zero h03)
    · rw [if_neg hpend]
      exact h

theorem draw_fst_pb {σ : ℕ → ℕ} {now : ℕ} {rid : Option ℕ} {db : DB} (h : Inv db)
    (hpb : potBalanced db) : potBalanced (execute_raffle_draw σ now rid db).1 := by
  unfold execute_raffle_draw
  cases hT : drawTarget rid db with
  | none => exact hpb
  | some raffle =>
    dsimp only
    by_cases hpend : raffleIsPending raffle = true
    · rw [if_pos hpend]
      have hmem := drawTarget_mem hT
      have hc1 : Core (setRaffleStatus raffle.id "drawing" db) :=
        core_setRaffleStatus _ _ (inv_core h)
      have h0 : pendingCount (setRaffleStatus raffle.id "drawing" db) = 0 :=
        pendingCount_complete h.one_pending h.raffle_ids_nodup hmem hpend _ (by decide)
      have hfcomp : ∀ a : Raffle, raffleIsPending { a with status := "completed" } = false := by
        intro a
        rfl
      by_cases hemp : (entriesFor (setRaffleStatus raffle.id "drawing" db) raffle.id).isEmpty = true
      · rw [if_pos hemp]
        exact potBalanced_rollover (core_setRaffleStatus _ _ hc1)
          (find?_none_of_pendingCount_zero (countP_zero_updateFirst h0 hfcomp))
      · rw [if_neg hemp]
        by_cases hwc : (min 2 (weightedEntries (entriesFor
            (setRaffleStatus raffle.id "drawing" db) raffle.id)).dedup.length == 0) = true
        · rw [if_pos hwc]
          exact potBalanced_rollover (core_setRaffleStatus _ _ hc1)
            (find?_none_of_pendingCount_zero (countP_zero_updateFirst h0 hfcomp))
        · rw [if_neg hwc]
          have hws : ∀ w ∈ (selectWinners σ (setRaffleStatus raffle.id "drawing" db).participants
              (raffle.total_pot - houseCut raffle.total_pot) raffle.id
              (distributionsFor (min 2 (weightedEntries (entriesFor
                (setRaffleStatus raffle.id "drawing" db) raffle.id)).dedup.length)) 1 0 []
              (weightedEntries (entriesFor (setRaffleStatus raffle.id "drawing" db) raffle.id))).1,
              w.raffle_id < (setRaffleStatus raffle.id "drawing" db).nextId := by
            intro w hw
            have hr := selectWinners_raffle_id _ _ _ _ _ _ _ _ _ w hw
            rw [hr]
            exact h.raffle_ids_lt raffle hmem
          exact potBalanced_rollover (core_setRaffleStatus _ _ (core_append_winners hc1 hws))
            (find?_none_of_pendingCount_zero (countP_zero_updateFirst h0 hfcomp))
    · rw [if_neg hpend]
      exact hpb

/-! ### More toolbox: conditional congruences and uniqueness -/

theorem map_updateFirst_cond {α β : Type} (p : α → Bool) (f : α → α) (g : α → β) (l : List α)
    (h : ∀ a, p a = true → g (f a) = g a) : (updateFirst p f l).map g = l.map g := by
  induction l with
  | nil => rfl
  | cons a l ih =>
    by_cases hpa : p a = true
    · rw [updateFirst_cons_pos _ _ _ _ hpa]
      simp [h a hpa]
    · rw [updateFirst_cons_neg _ _ _ _ (by simpa using hpa)]
      simp [ih]

theorem countP_updateFirst_cond {α : Type} (p q : α → Bool) (f : α → α) (l : List α)
    (h : ∀ a, p a = true → q (f a) = q a) : (updateFirst p f l).countP q = l.countP q := by
  induction l with
  | nil => rfl
  | cons a l ih =>
    by_cases hpa : p a = true
    · rw [updateFirst_cons_pos _ _ _ _ hpa]
      simp [List.countP_cons, h a hpa]
    · rw [updateFirst_cons_neg _ _ _ _ (by simpa using hpa)]
      simp [List.countP_cons, ih]

theorem countP_one_unique {α : Type} {p : α → Bool} {l : List α} (h : l.countP p = 1)
    {a b : α} (ha : a ∈ l) (hb : b ∈ l) (hpa : p a = true) (hpb : p b = true) : a = b := by
  by_contra hne
  obtain ⟨s, t, hst⟩ := List.append_of_mem ha
  subst hst
  rw [List.countP_append, List.countP_cons, hpa] at h
  have hbst : b ∈ s ∨ b ∈ t := by
    rcases List.mem_append.mp hb with h1 | h1
    · exact Or.inl h1
    · rcases List.mem_cons.mp h1 with rfl | h2
      · exact absurd rfl hne
      · exact Or.inr h2
  rcases hbst with h1 | h1
  · have : 0 < s.countP p := List.countP_pos.mpr ⟨b, h1, hpb⟩
    simp at h
    omega
  · have : 0 < t.countP p := List.countP_pos.mpr ⟨b, h1, hpb⟩
    simp at h
    omega

theorem mem_map_of_map_eq {α β : Type} {g : α → β} {l l' : List α}
    (hmap : l'.map g = l.map g) {a : α} (ha : a ∈ l) : ∃ a', a' ∈ l' ∧ g a' = g a := by
  have h1 : g a ∈ l.map g := List.mem_map_of_mem g ha
  rw [← hmap] at h1
  exact List.mem_map.mp h1

/-! ### Invariant preservation of the remaining operations -/

theorem inv_congr {db db' : DB} (h : Inv db)
    (hp : db'.participants = db.participants) (hr : db'.raffles = db.raffles)
    (he : db'.entries = db.entries) (hw : db'.winners = db.winners)
    (hn : db'.nextId = db.nextId) : Inv db' := by
  obtain ⟨c, ps, rs, es, ws, n⟩ := db'
  dsimp only at hp hr he hw hn
  subst hp
  subst hr
  subst he
  subst hw
  subst hn
  exact ⟨h.one_pending, h.raffle_ids_nodup, h.raffle_ids_lt, h.part_ids_nodup, h.part_ids_lt,
    h.wager_min, h.wager_mod, h.all_verified, h.entry_pairs_nodup, h.entry_count_pos,
    h.entry_raffle_lt, h.entry_part_exists, h.part_has_entry, h.winner_raffle_lt,
    h.no_pending_winner⟩

theorem pb_congr {db db' : DB} (h : potBalanced db)
    (hr : db'.raffles = db.raffles) (he : db'.entries = db.entries) : potBalanced db' := by
  obtain ⟨c, ps, rs, es, ws, n⟩ := db'
  dsimp only at hr he
  subst hr
  subst he
  exact h

theorem setConfig_participants (db : DB) (k v : String) :
    (setConfig db k v).participants = db.participants := by
  unfold setConfig
  split <;> rfl

theorem setConfig_raffles (db : DB) (k v : String) :
    (setConfig db k v).raffles = db.raffles := by
  unfold setConfig
  split <;> rfl

theorem setConfig_entries (db : DB) (k v : String) :
    (setConfig db k v).entries = db.entries := by
  unfold setConfig
  split <;> rfl

theorem setConfig_winners (db : DB) (k v : String) :
    (setConfig db k v).winners = db.winners := by
  unfold setConfig
  split <;> rfl

theorem setConfig_nextId (db : DB) (k v : String) :
    (setConfig db k v).nextId = db.nextId := by
  unfold setConfig
  split <;> rfl

theorem update_config_participants (kvs : List (String × String)) (db : DB) :
    (update_config kvs db).participants = db.participants := by
  induction kvs generalizing db with
  | nil => rfl
  | cons kv kvs ih =>
    unfold update_config at ih ⊢
    rw [List.foldl_cons, ih, setConfig_participants]

theorem update_config_raffles (kvs : List (String × String)) (db : DB) :
    (update_config kvs db).raffles = db.raffles := by
  induction kvs generalizing db with
  | nil => rfl
  | cons kv kvs ih =>
    unfold update_config at ih ⊢
    rw [List.foldl_cons, ih, setConfig_raffles]

theorem update_config_entries (kvs : List (String × String)) (db : DB) :
    (update_config kvs db).entries = db.entries := by
  induction kvs generalizing db with
  | nil => rfl
  | cons kv kvs ih =>
    unfold update_config at ih ⊢
    rw [List.foldl_cons, ih, setConfig_entries]

theorem update_config_winners (kvs : List (String × String)) (db : DB) :
    (update_config kvs db).winners = db.winners := by
  induction kvs generalizing db with
  | nil => rfl
  | cons kv kvs ih =>
    unfold update_config at ih ⊢
    rw [List.foldl_cons, ih, setConfig_winners]

theorem update_config_nextId (kvs : List (String × String)) (db : DB) :
    (update_config kvs db).nextId = db.nextId := by
  induction kvs generalizing db with
  | nil => rfl
  | cons kv kvs ih =>
    unfold update_config at ih ⊢
    rw [List.foldl_cons, ih, setConfig_nextId]

theorem inv_update_config {kvs : List (String × String)} {db : DB} (h : Inv db) :
    Inv (update_config kvs db) :=
  inv_congr h (update_config_participants kvs db) (update_config_raffles kvs db)
    (update_config_entries kvs db) (update_config_winners kvs db) (update_config_nextId kvs db)

theorem inv_verify {now pid : ℕ} {db : DB} (h : Inv db) :
    Inv (verify_participant now pid db).1 := by
  unfold verify_participant
  cases hF : db.participants.find? (fun p => p.id == pid) with
  | none => exact h
  | some p =>
    dsimp only
    have hv : p.verified = true := h.all_verified p (List.mem_of_find?_eq_some hF)
    rw [if_pos hv]
    exact h

theorem inv_reject {pid : ℕ} {db : DB} (h : Inv db) : Inv (reject_participant pid db).1 := by
  unfold reject_participant
  cases hF : db.participants.find? (fun p => p.id == pid) with
  | none => exact h
  | some p0 =>
    dsimp only
    constructor
    case one_pending => exact h.one_pending
    case raffle_ids_nodup => exact h.raffle_ids_nodup
    case raffle_ids_lt => exact h.raffle_ids_lt
    case part_ids_nodup =>
      have hsub : (db.participants.filter (fun p => p.id != pid)).Sublist db.participants :=
        List.filter_sublist _
      exact (hsub.map (fun p => p.id)).nodup h.part_ids_nodup
    case part_ids_lt =>
      intro p hp
      exact h.part_ids_lt p (List.mem_filter.mp hp).1
    case wager_min =>
      intro p hp
      exact h.wager_min p (List.mem_filter.mp hp).1
    case wager_mod =>
      intro p hp
      exact h.wager_mod p (List.mem_filter.mp hp).1
    case all_verified =>
      intro p hp
      exact h.all_verified p (List.mem_filter.mp hp).1
    case entry_pairs_nodup =>
      have hsub : (db.entries.filter (fun e => e.participant_id != pid)).Sublist db.entries :=
        List.filter_sublist _
      exact (hsub.map (fun e => (e.raffle_id, e.participant_id))).nodup h.entry_pairs_nodup
    case entry_count_pos =>
      intro e he
      exact h.entry_count_pos e (List.mem_filter.mp he).1
    case entry_raffle_lt =>
      intro e he
      exact h.entry_raffle_lt e (List.mem_filter.mp he).1
    case entry_part_exists =>
      intro e he
      obtain ⟨he1, he2⟩ := List.mem_filter.mp he
      obtain ⟨p, hp, hpid⟩ := h.entry_part_exists e he1
      refine ⟨p, List.mem_filter.mpr ⟨hp, ?_⟩, hpid⟩
      rw [bne_iff_ne]
      rw [hpid]
      simpa using he2
    case part_has_entry =>
      intro r hr hpend p hp
      obtain ⟨hp1, hp2⟩ := List.mem_filter.mp hp
      obtain ⟨e, he, he1, he2⟩ := h.part_has_entry r hr hpend p hp1
      refine ⟨e, List.mem_filter.mpr ⟨he, ?_⟩, he1, he2⟩
      rw [he2]
      exact hp2
    case winner_raffle_lt => exact h.winner_raffle_lt
    case no_pending_winner => exact h.no_pending_winner

theorem inv_tick {σ : ℕ → ℕ} {now : ℕ} {db : DB} (h : Inv db) :
    Inv (check_and_execute_draw σ now db) := by
  unfold check_and_execute_draw
  cases hF : db.raffles.find? raffleIsPending with
  | none => exact h
  | some r =>
    dsimp only
    by_cases ht : r.draw_time ≤ now
    · rw [if_pos ht]
      exact draw_fst_inv h
    · rw [if_neg ht]
      exact h

theorem trigger_fst (σ : ℕ → ℕ) (now : ℕ) (db : DB) :
    (trigger_draw σ now db).1 = (execute_raffle_draw σ now none db).1 := by
  unfold trigger_draw
  cases hR : (execute_raffle_draw σ now none db).2 <;> simp [hR]

theorem inv_trigger {σ : ℕ → ℕ} {now : ℕ} {db : DB} (h : Inv db) :
    Inv (trigger_draw σ now db).1 := by
  rw [trigger_fst]
  exact draw_fst_inv h

theorem inv_reset (now : ℕ) (db : DB) : Inv (reset_system now db) := by
  unfold reset_system
  apply inv_rollover
  · constructor <;> simp
  · rfl

theorem pb_reset (now : ℕ) (db : DB) : potBalanced (reset_system now db) := by
  unfold reset_system
  apply potBalanced_rollover
  · constructor <;> simp
  · rfl

theorem inv_resetTimer {now : ℕ} {db : DB} (h : Inv db) : Inv (reset_timer now db).1 := by
  unfold reset_timer
  cases hF : db.raffles.find? raffleIsPending with
  | none => exact h
  | some r =>
    dsimp only
    have hid : ∀ a : Raffle,
        (fun x => x.id) ({ a with draw_time := nextDrawTime now } : Raffle) = a.id := by
      intro a
      rfl
    have hpendf : ∀ a : Raffle,
        raffleIsPending ({ a with draw_time := nextDrawTime now } : Raffle) = raffleIsPending a := by
      intro a
      rfl
    constructor
    case one_pending =>
      unfold pendingCount
      dsimp only
      rw [countP_updateFirst _ _ _ _ hpendf]
      exact h.one_pending
    case raffle_ids_nodup =>
      dsimp only
      rw [map_updateFirst _ _ _ _ hid]
      exact h.raffle_ids_nodup
    case raffle_ids_lt =>
      intro r2 hr2
      dsimp only at hr2 ⊢
      rcases mem_updateFirst hr2 with h1 | ⟨a, ha, _, rfl⟩
      · exact h.raffle_ids_lt r2 h1
      · exact h.raffle_ids_lt a ha
    case part_ids_nodup => exact h.part_ids_nodup
    case part_ids_lt => exact h.part_ids_lt
    case wager_min => exact h.wager_min
    case wager_mod => exact h.wager_mod
    case all_verified => exact h.all_verified
    case entry_pairs_nodup => exact h.entry_pairs_nodup
    case entry_count_pos => exact h.entry_count_pos
    case entry_raffle_lt => exact h.entry_raffle_lt
    case entry_part_exists => exact h.entry_part_exists
    case part_has_entry =>
      intro r2 hr2 hpend p hp
      dsimp only at hr2 hp ⊢
      rcases mem_updateFirst hr2 with h1 | ⟨a, ha, _, rfl⟩
      · exact h.part_has_entry r2 h1 hpend p hp
      · rw [hpendf a] at hpend
        obtain ⟨e, he, he1, he2⟩ := h.part_has_entry a ha hpend p hp
        exact ⟨e, he, he1, he2⟩
    case winner_raffle_lt => exact h.winner_raffle_lt
    case no_pending_winner =>
      intro r2 hr2 hpend w hw
      dsimp only at hr2 hw ⊢
      rcases mem_updateFirst hr2 with h1 | ⟨a, ha, _, rfl⟩
      · exact h.no_pending_winner r2 h1 hpend w hw
      · rw [hpendf a] at hpend
        exact h.no_pending_winner a ha hpend w hw

/-! ### signup characterisation under the invariants -/

theorem signup_existing_char {now : ℕ} {name phone : String} {wager : ℕ} {pin : String}
    {db : DB} (h : Inv db)
    (hname : (name == "") = false) (hphone : (phone == "") = false)
    (hw : ¬ wager < 10) (hmod : (wager % 10 != 0) = false)
    (hpin : (pin != getConfig db "admin_pin" "1234") = false)
    {p : Participant} (hfindp : db.participants.find? (fun q => q.phone == phone) = some p) :
    ∃ r e, db.raffles.find? raffleIsPending = some r ∧ raffleIsPending r = true ∧
      r ∈ db.raffles ∧
      e ∈ db.entries ∧ e.raffle_id = r.id ∧ e.participant_id = p.id ∧
      signup now name phone wager pin db =
        ({ db with
            participants := updateFirst (fun q => q.id == p.id)
              (fun _ => { p with wager_amount := p.wager_amount + wager, name := name })
              db.participants,
            entries := updateFirst
              (fun e2 => e2.raffle_id == r.id && e2.participant_id == p.id)
              (fun e2 => { e2 with entry_count := e2.entry_count + wager / 10 }) db.entries,
            raffles := updateFirst (fun r2 => r2.id == r.id)
              (fun r2 => { r2 with total_pot := r2.total_pot + wager }) db.raffles },
         .ok p.id) := by
  obtain ⟨r, hfind, hpendr, hrmem⟩ := find?_pending_of_one h.one_pending
  have hpmem : p ∈ db.participants := List.mem_of_find?_eq_some hfindp
  obtain ⟨e, he, he1, he2⟩ := h.part_has_entry r hrmem hpendr p hpmem
  refine ⟨r, e, hfind, hpendr, hrmem, he, he1, he2, ?_⟩
  unfold signup
  rw [if_neg (by simp [hname]), if_neg (by simp [hphone]), if_neg hw,
    if_neg (by simp_all), if_neg (by simp [hpin])]
  rw [gcr_of_found hfind]
  dsimp only
  rw [hfindp]
  dsimp only
  have hES : (db.entries.find? (fun e2 => e2.raffle_id == r.id &&
      e2.participant_id == p.id)).isSome = true := by
    rw [List.find?_isSome]
    exact ⟨e, he, by simp [he1, he2]⟩
  cases hE : db.entries.find? (fun e2 => e2.raffle_id == r.id && e2.participant_id == p.id) with
  | none => rw [hE] at hES; simp at hES
  | some e0 => rfl

theorem signup_new_char {now : ℕ} {name phone : String} {wager : ℕ} {pin : String}
    {db : DB} (h : Inv db)
    (hname : (name == "") = false) (hphone : (phone == "") = false)
    (hw : ¬ wager < 10) (hmod : (wager % 10 != 0) = false)
    (hpin : (pin != getConfig db "admin_pin" "1234") = false)
    (hfindp : db.participants.find? (fun q => q.phone == phone) = none) :
    ∃ r, db.raffles.find? raffleIsPending = some r ∧ raffleIsPending r = true ∧
      r ∈ db.raffles ∧
      signup now name phone wager pin db =
        ({ db with
            participants := db.participants ++
              [{ id := db.nextId, name := name, phone := phone,
                 wager_amount := wager, verified := true }],
            entries := db.entries ++
              [{ raffle_id := r.id, participant_id := db.nextId, entry_count := wager / 10 }],
            raffles := updateFirst (fun r2 => r2.id == r.id)
              (fun r2 => { r2 with total_pot := r2.total_pot + wager }) db.raffles,
            nextId := db.nextId + 1 },
         .ok db.nextId) := by
  obtain ⟨r, hfind, hpendr, hrmem⟩ := find?_pending_of_one h.one_pending
  refine ⟨r, hfind, hpendr, hrmem, ?_⟩
  unfold signup
  rw [if_neg (by simp [hname]), if_neg (by simp [hphone]), if_neg hw,
    if_neg (by simp_all), if_neg (by simp [hpin])]
  rw [gcr_of_found hfind]
  dsimp only
  rw [hfindp]
  dsimp only
  unfold add_verified_participant_to_raffle
  have hfind2 : ({ db with
      participants := db.participants ++
        [{ id := db.nextId, name := name, phone := phone,
           wager_amount := wager, verified := true }],
      nextId := db.nextId + 1 } : DB).raffles.find? raffleIsPending = some r := hfind
  rw [gcr_of_found hfind2]
  dsimp only
  have hEnone : db.entries.find? (fun e2 => e2.raffle_id == r.id &&
      e2.participant_id == db.nextId) = none := by
    rw [List.find?_eq_none]
    intro e2 he2 hpred
    obtain ⟨q, hq, hqid⟩ := h.entry_part_exists e2 he2
    have hqlt := h.part_ids_lt q hq
    simp at hpred
    omega
  rw [hEnone]

theorem inv_signup {now : ℕ} {name phone : String} {wager : ℕ} {pin : String} {db : DB}
    (h : Inv db) : Inv (signup now name phone wager pin db).1 := by
  by_cases h1 : (name == "") = true
  · unfold signup
    rw [if_pos h1]
    exact h
  by_cases h2 : (phone == "") = true
  · unfold signup
    rw [if_neg h1, if_pos h2]
    exact h
  by_cases h3 : wager < 10
  · unfold signup
    rw [if_neg h1, if_neg h2, if_pos h3]
    exact h
  by_cases h4 : (wager % 10 != 0) = true
  · unfold signup
    rw [if_neg h1, if_neg h2, if_neg h3, if_pos h4]
    exact h
  by_cases h5 : (pin != getConfig db "admin_pin" "1234") = true
  · unfold signup
    rw [if_neg h1, if_neg h2, if_neg h3, if_neg h4, if_pos h5]
    exact h
  have hmod : wager % 10 = 0 := by simpa using h4
  have hw10 : 10 ≤ wager := by omega
  cases hF : db.participants.find? (fun q => q.phone == phone) with
  | some p =>
    obtain ⟨r, e, hfind, hpendr, hrmem, he, he1, he2, hchar⟩ :=
      signup_existing_char h (by simpa using h1) (by simpa using h2) h3
        (by simpa using h4) (by simpa using h5) hF
    rw [hchar]
    have hpmem : p ∈ db.participants := List.mem_of_find?_eq_some hF
    have hr2cases : ∀ r2 ∈ updateFirst (fun r2 => r2.id == r.id)
        (fun r2 => { r2 with total_pot := r2.total_pot + wager }) db.raffles,
        raffleIsPending r2 = true →
        ∃ a ∈ db.raffles, raffleIsPending a = true ∧ r2.id = a.id := by
      intro r2 hr2 hpend2
      rcases mem_updateFirst hr2 with hm | ⟨a, ha, _, rfl⟩
      · exact ⟨r2, hm, hpend2, rfl⟩
      · exact ⟨a, ha, hpend2, rfl⟩
    have hpartsid : (updateFirst (fun q => q.id == p.id)
        (fun _ => { p with wager_amount := p.wager_amount + wager, name := name })
        db.participants).map (fun q => q.id) = db.participants.map (fun q => q.id) := by
      apply map_updateFirst_cond
      intro a ha
      simp only [beq_iff_eq] at ha
      simp [ha]
    have hpairsid : (updateFirst
        (fun e2 => e2.raffle_id == r.id && e2.participant_id == p.id)
        (fun e2 => { e2 with entry_count := e2.entry_count + wager / 10 })
        db.entries).map (fun e2 => (e2.raffle_id, e2.participant_id)) =
        db.entries.map (fun e2 => (e2.raffle_id, e2.participant_id)) := by
      apply map_updateFirst_cond
      intro a _
      rfl
    constructor
    · -- one_pending
      unfold pendingCount
      dsimp only
      rw [countP_updateFirst (fun r2 => r2.id == r.id) raffleIsPending
        (fun r2 => { r2 with total_pot := r2.total_pot + wager }) db.raffles (fun a => rfl)]
      exact h.one_pending
    · -- raffle_ids_nodup
      dsimp only
      rw [map_updateFirst (fun r2 => r2.id == r.id)
        (fun r2 => { r2 with total_pot := r2.total_pot + wager })
        (fun x => x.id) db.raffles (fun a => rfl)]
      exact h.raffle_ids_nodup
    · -- raffle_ids_lt
      intro r2 hr2
      dsimp only at hr2 ⊢
      rcases mem_updateFirst hr2 with hm | ⟨a, ha, _, rfl⟩
      · exact h.raffle_ids_lt r2 hm
      · exact h.raffle_ids_lt a ha
    · -- part_ids_nodup
      dsimp only
      rw [hpartsid]
      exact h.part_ids_nodup
    · -- part_ids_lt
      intro q hq
      dsimp only at hq ⊢
      rcases mem_updateFirst hq with hm | ⟨a, ha, _, rfl⟩
      · exact h.part_ids_lt q hm
      · exact h.part_ids_lt p hpmem
    · -- wager_min
      intro q hq
      dsimp only at hq ⊢
      rcases mem_updateFirst hq with hm | ⟨a, ha, _, rfl⟩
      · exact h.wager_min q hm
      · have := h.wager_min p hpmem
        dsimp only
        omega
    · -- wager_mod
      intro q hq
      dsimp only at hq ⊢
      rcases mem_updateFirst hq with hm | ⟨a, ha, _, rfl⟩
      · exact h.wager_mod q hm
      · have := h.wager_mod p hpmem
        dsimp only
        omega
    · -- all_verified
      intro q hq
      dsimp only at hq ⊢
      rcases mem_updateFirst hq with hm | ⟨a, ha, _, rfl⟩
      · exact h.all_verified q hm
      · exact h.all_verified p hpmem
    · -- entry_pairs_nodup
      dsimp only
      rw [hpairsid]
      exact h.entry_pairs_nodup
    · -- entry_count_pos
      intro e2 he2
      dsimp only at he2 ⊢
      rcases mem_updateFirst he2 with hm | ⟨a, ha, _, rfl⟩
      · exact h.entry_count_pos e2 hm
      · have := h.entry_count_pos a ha
        dsimp only
        omega
    · -- entry_raffle_lt
      intro e2 he2
      dsimp only at he2 ⊢
      rcases mem_updateFirst he2 with hm | ⟨a, ha, _, rfl⟩
      · exact h.entry_raffle_lt e2 hm
      · exact h.entry_raffle_lt a ha
    · -- entry_part_exists
      intro e2 he2
      dsimp only at he2 ⊢
      have hget : ∃ q0 ∈ db.participants, q0.id = e2.participant_id ∨
          ∃ a ∈ db.entries, e2.participant_id = a.participant_id ∧ q0.id = a.participant_id := by
        rcases mem_updateFirst he2 with hm | ⟨a, ha, _, rfl⟩
        · obtain ⟨q0, hq0, hq0id⟩ := h.entry_part_exists e2 hm
          exact ⟨q0, hq0, Or.inl hq0id⟩
        · obtain ⟨q0, hq0, hq0id⟩ := h.entry_part_exists a ha
          exact ⟨q0, hq0, Or.inl hq0id⟩
      obtain ⟨q0, hq0, hq0id⟩ := hget
      have hq0id2 : q0.id = e2.participant_id := by
        rcases hq0id with h9 | ⟨a, _, h9, h10⟩
        · exact h9
        · rw [h10, ← h9]
      obtain ⟨q1, hq1, hq1id⟩ := mem_map_of_map_eq hpartsid hq0
      exact ⟨q1, hq1, by rw [hq1id, hq0id2]⟩
    · -- part_has_entry
      intro r2 hr2 hpend2 q hq
      dsimp only at hr2 hq ⊢
      obtain ⟨a, ha, hapend, haid⟩ := hr2cases r2 hr2 hpend2
      have hqid : ∃ q0 ∈ db.participants, q0.id = q.id := by
        rcases mem_updateFirst hq with hm | ⟨b, hb, _, rfl⟩
        · exact ⟨q, hm, rfl⟩
        · exact ⟨p, hpmem, rfl⟩
      obtain ⟨q0, hq0, hq0id⟩ := hqid
      obtain ⟨e3, he3, he31, he32⟩ := h.part_has_entry a ha hapend q0 hq0
      obtain ⟨e4, he4, he4id⟩ := mem_map_of_map_eq hpairsid he3
      have he4p : e4.raffle_id = a.id ∧ e4.participant_id = q0.id := by
        have := he4id
        rw [Prod.mk.injEq] at this
        exact ⟨by rw [this.1, he31], by rw [this.2, he32]⟩
      exact ⟨e4, he4, by rw [he4p.1, haid], by rw [he4p.2, hq0id]⟩
    · -- winner_raffle_lt
      exact h.winner_raffle_lt
    · -- no_pending_winner
      intro r2 hr2 hpend2 w hw
      dsimp only at hr2 hw ⊢
      obtain ⟨a, ha, hapend, haid⟩ := hr2cases r2 hr2 hpend2
      rw [haid]
      exact h.no_pending_winner a ha hapend w hw
  | none =>
    obtain ⟨r, hfind, hpendr, hrmem, hchar⟩ :=
      signup_new_char h (by simpa using h1) (by simpa using h2) h3
        (by simpa using h4) (by simpa using h5) hF
    rw [hchar]
    have hr2cases : ∀ r2 ∈ updateFirst (fun r2 => r2.id == r.id)
        (fun r2 => { r2 with total_pot := r2.total_pot + wager }) db.raffles,
        raffleIsPending r2 = true →
        ∃ a ∈ db.raffles, raffleIsPending a = true ∧ r2.id = a.id := by
      intro r2 hr2 hpend2
      rcases mem_updateFirst hr2 with hm | ⟨a, ha, _, rfl⟩
      · exact ⟨r2, hm, hpend2, rfl⟩
      · exact ⟨a, ha, hpend2, rfl⟩
    have hpendid : ∀ a ∈ db.raffles, raffleIsPending a = true → a = r := by
      intro a ha hapend
      exact countP_one_unique h.one_pending ha hrmem hapend hpendr
    constructor
    · -- one_pending
      unfold pendingCount
      dsimp only
      rw [countP_updateFirst (fun r2 => r2.id == r.id) raffleIsPending
        (fun r2 => { r2 with total_pot := r2.total_pot + wager }) db.raffles (fun a => rfl)]
      exact h.one_pending
    · -- raffle_ids_nodup
      dsimp only
      rw [map_updateFirst (fun r2 => r2.id == r.id)
        (fun r2 => { r2 with total_pot := r2.total_pot + wager })
        (fun x => x.id) db.raffles (fun a => rfl)]
      exact h.raffle_ids_nodup
    · -- raffle_ids_lt
      intro r2 hr2
      dsimp only at hr2 ⊢
      rcases mem_updateFirst hr2 with hm | ⟨a, ha, _, rfl⟩
      · have := h.raffle_ids_lt r2 hm
        omega
      · have := h.raffle_ids_lt a ha
        dsimp only
        omega
    · -- part_ids_nodup
      dsimp only
      simp only [List.map_append, List.map_cons, List.map_nil]
      rw [List.nodup_append]
      refine ⟨h.part_ids_nodup, by simp, ?_⟩
      intro x hx hx2
      simp at hx2
      obtain ⟨q, hq, hqid⟩ := List.mem_map.mp hx
      have := h.part_ids_lt q hq
      omega
    · -- part_ids_lt
      intro q hq
      dsimp only at hq ⊢
      rcases List.mem_append.mp hq with hm | hm
      · have := h.part_ids_lt q hm
        omega
      · simp at hm
        subst hm
        simp
    · -- wager_min
      intro q hq
      dsimp only at hq
      rcases List.mem_append.mp hq with hm | hm
      · exact h.wager_min q hm
      · simp at hm
        subst hm
        simpa using hw10
    · -- wager_mod
      intro q hq
      dsimp only at hq
      rcases List.mem_append.mp hq with hm | hm
      · exact h.wager_mod q hm
      · simp at hm
        subst hm
        simpa using hmod
    · -- all_verified
      intro q hq
      dsimp only at hq
      rcases List.mem_append.mp hq with hm | hm
      · exact h.all_verified q hm
      · simp at hm
        subst hm
        rfl
    · -- entry_pairs_nodup
      dsimp only
      simp only [List.map_append, List.map_cons, List.map_nil]
      rw [List.nodup_append]
      refine ⟨h.entry_pairs_nodup, by simp, ?_⟩
      intro x hx hx2
      have hx2e : x = (r.id, db.nextId) := by simpa using hx2
      have hx22 : x.2 = db.nextId := by rw [hx2e]
      obtain ⟨e2, he2, he2id⟩ := List.mem_map.mp hx
      obtain ⟨q, hq, hqid⟩ := h.entry_part_exists e2 he2
      have hqlt := h.part_ids_lt q hq
      have hx2' : x.2 = e2.participant_id := by rw [← he2id]
      omega
    · -- entry_count_pos
      intro e2 he2
      dsimp only at he2
      rcases List.mem_append.mp he2 with hm | hm
      · exact h.entry_count_pos e2 hm
      · simp at hm
        subst hm
        simpa using (Nat.one_le_div_iff (by omega)).mpr hw10
    · -- entry_raffle_lt
      intro e2 he2
      dsimp only at he2 ⊢
      rcases List.mem_append.mp he2 with hm | hm
      · have := h.entry_raffle_lt e2 hm
        omega
      · simp at hm
        subst hm
        have := h.raffle_ids_lt r hrmem
        dsimp only
        omega
    · -- entry_part_exists
      intro e2 he2
      dsimp only at he2 ⊢
      rcases List.mem_append.mp he2 with hm | hm
      · obtain ⟨q, hq, hqid⟩ := h.entry_part_exists e2 hm
        exact ⟨q, List.mem_append.mpr (Or.inl hq), hqid⟩
      · simp at hm
        subst hm
        refine ⟨{ id := db.nextId, name := name, phone := phone,
                  wager_amount := wager, verified := true }, ?_, rfl⟩
        exact List.mem_append.mpr (Or.inr (by simp))
    · -- part_has_entry
      intro r2 hr2 hpend2 q hq
      dsimp only at hr2 hq ⊢
      obtain ⟨a, ha, hapend, haid⟩ := hr2cases r2 hr2 hpend2
      have har : a = r := hpendid a ha hapend
      subst har
      rcases List.mem_append.mp hq with hm | hm
      · obtain ⟨e3, he3, he31, he32⟩ := h.part_has_entry a ha hapend q hm
        exact ⟨e3, List.mem_append.mpr (Or.inl he3), by rw [he31, haid], he32⟩
      · simp at hm
        subst hm
        refine ⟨{ raffle_id := a.id, participant_id := db.nextId,
                  entry_count := wager / 10 }, ?_, by rw [haid], rfl⟩
        exact List.mem_append.mpr (Or.inr (by simp))
    · -- winner_raffle_lt
      intro w hw
      dsimp only at hw ⊢
      have := h.winner_raffle_lt w hw
      omega
    · -- no_pending_winner
      intro r2 hr2 hpend2 w hw
      dsimp only at hr2 hw ⊢
      obtain ⟨a, ha, hapend, haid⟩ := hr2cases r2 hr2 hpend2
      rw [haid]
      exact h.no_pending_winner a ha hapend w hw

/-! ### Startup state, pot balance preservation, and the reachability inductions -/

theorem initialDB_eq (now0 : ℕ) : initialDB now0 =
    { configs := [("draw_interval", "60"), ("min_wager", "10"), ("max_wager", "1000"),
        ("admin_pin", "1234")],
      participants := [],
      raffles := [{ id := 1, draw_time := nextDrawTime now0, total_pot := 0, status := "pending" }],
      entries := [], winners := [], nextId := 2 } := rfl

theorem inv_init (now0 : ℕ) : Inv (initialDB now0) := by
  rw [initialDB_eq]
  constructor <;> simp [pendingCount, raffleIsPending, List.countP_cons]

theorem pb_init (now0 : ℕ) : potBalanced (initialDB now0) := by
  rw [initialDB_eq]
  intro r hr hpend
  simp at hr
  subst hr
  rfl

theorem pb_verify {now pid : ℕ} {db : DB} (h : Inv db) (hpb : potBalanced db) :
    potBalanced (verify_participant now pid db).1 := by
  unfold verify_participant
  cases hF : db.participants.find? (fun p => p.id == pid) with
  | none => exact hpb
  | some p =>
    dsimp only
    have hv : p.verified = true := h.all_verified p (List.mem_of_find?_eq_some hF)
    rw [if_pos hv]
    exact hpb

theorem pb_tick {σ : ℕ → ℕ} {now : ℕ} {db : DB} (h : Inv db) (hpb : potBalanced db) :
    potBalanced (check_and_execute_draw σ now db) := by
  unfold check_and_execute_draw
  cases hF : db.raffles.find? raffleIsPending with
  | none => exact hpb
  | some r =>
    dsimp only
    by_cases ht : r.draw_time ≤ now
    · rw [if_pos ht]
      exact draw_fst_pb h hpb
    · rw [if_neg ht]
      exact hpb

theorem pb_trigger {σ : ℕ → ℕ} {now : ℕ} {db : DB} (h : Inv db) (hpb : potBalanced db) :
    potBalanced (trigger_draw σ now db).1 := by
  rw [trigger_fst]
  exact draw_fst_pb h hpb

theorem pb_resetTimer {now : ℕ} {db : DB} (hpb : potBalanced db) :
    potBalanced (reset_timer now db).1 := by
  unfold reset_timer
  cases hF : db.raffles.find? raffleIsPending with
  | none => exact hpb
  | some r =>
    dsimp only
    intro r2 hr2 hpend2
    dsimp only at hr2 ⊢
    rcases mem_updateFirst hr2 with hm | ⟨a, ha, _, rfl⟩
    · exact hpb r2 hm hpend2
    · exact hpb a ha hpend2

theorem pb_update_config {kvs : List (String × String)} {db : DB} (hpb : potBalanced db) :
    potBalanced (update_config kvs db) :=
  pb_congr hpb (update_config_raffles kvs db) (update_config_entries kvs db)

theorem pb_signup {now : ℕ} {name phone : String} {wager : ℕ} {pin : String} {db : DB}
    (h : Inv db) (hpb : potBalanced db) :
    potBalanced (signup now name phone wager pin db).1 := by
  by_cases h1 : (name == "") = true
  · unfold signup
    rw [if_pos h1]
    exact hpb
  by_cases h2 : (phone == "") = true
  · unfold signup
    rw [if_neg h1, if_pos h2]
    exact hpb
  by_cases h3 : wager < 10
  · unfold signup
    rw [if_neg h1, if_neg h2, if_pos h3]
    exact hpb
  by_cases h4 : (wager % 10 != 0) = true
  · unfold signup
    rw [if_neg h1, if_neg h2, if_neg h3, if_pos h4]
    exact hpb
  by_cases h5 : (pin != getConfig db "admin_pin" "1234") = true
  · unfold signup
    rw [if_neg h1, if_neg h2, if_neg h3, if_neg h4, if_pos h5]
    exact hpb
  have hmod : wager % 10 = 0 := by simpa using h4
  cases hF : db.participants.find? (fun q => q.phone == phone) with
  | some p =>
    obtain ⟨r, e, hfind, hpendr, hrmem, he, he1, he2, hchar⟩ :=
      signup_existing_char h (by simpa using h1) (by simpa using h2) h3
        (by simpa using h4) (by simpa using h5) hF
    rw [hchar]
    obtain ⟨l1, l2, hl, hbeq, _, _⟩ := raffles_decomp_of_mem h.raffle_ids_nodup hrmem
    have hone := h.one_pending
    unfold pendingCount at hone
    rw [hl, List.countP_append, List.countP_cons, hpendr] at hone
    have e1 : (if (true : Bool) = true then 1 else 0) = 1 := by simp
    rw [e1] at hone
    have hl10 : l1.countP raffleIsPending = 0 := by omega
    have hl20 : l2.countP raffleIsPending = 0 := by omega
    intro r2 hr2 hpend2
    dsimp only at hr2 ⊢
    rw [hl, updateFirst_append_cons _ _ _ _ _ hbeq (by simp)] at hr2
    have hr2f : r2 = { r with total_pot := r.total_pot + wager } := by
      rcases List.mem_append.mp hr2 with hm | hm
      · exact absurd (List.countP_pos.mpr ⟨r2, hm, hpend2⟩) (by omega)
      · rcases List.mem_cons.mp hm with h9 | h9
        · exact h9
        · exact absurd (List.countP_pos.mpr ⟨r2, h9, hpend2⟩) (by omega)
    subst hr2f
    dsimp only
    have hsum : (((updateFirst
        (fun e2 => e2.raffle_id == r.id && e2.participant_id == p.id)
        (fun e2 => { e2 with entry_count := e2.entry_count + wager / 10 })
        db.entries).filter (fun e2 => e2.raffle_id == r.id)).map
          (fun e2 => e2.entry_count)).sum =
        ((db.entries.filter (fun e2 => e2.raffle_id == r.id)).map
          (fun e2 => e2.entry_count)).sum + wager / 10 := by
      rw [filter_updateFirst
        (fun e2 => e2.raffle_id == r.id && e2.participant_id == p.id)
        (fun e2 => e2.raffle_id == r.id)
        (fun e2 => { e2 with entry_count := e2.entry_count + wager / 10 })
        db.entries
        (fun a ha => by simp at ha; simp [ha.1])
        (fun a => rfl)]
      apply sum_map_updateFirst
      · intro a _
        rfl
      · exact ⟨e, List.mem_filter.mpr ⟨he, by simp [he1]⟩, by simp [he1, he2]⟩
    have hbal := hpb r hrmem hpendr
    unfold entrySum entriesFor at hbal ⊢
    dsimp only
    rw [hsum]
    omega
  | none =>
    obtain ⟨r, hfind, hpendr, hrmem, hchar⟩ :=
      signup_new_char h (by simpa using h1) (by simpa using h2) h3
        (by simpa using h4) (by simpa using h5) hF
    rw [hchar]
    obtain ⟨l1, l2, hl, hbeq, _, _⟩ := raffles_decomp_of_mem h.raffle_ids_nodup hrmem
    have hone := h.one_pending
    unfold pendingCount at hone
    rw [hl, List.countP_append, List.countP_cons, hpendr] at hone
    have e1 : (if (true : Bool) = true then 1 else 0) = 1 := by simp
    rw [e1] at hone
    have hl10 : l1.countP raffleIsPending = 0 := by omega
    have hl20 : l2.countP raffleIsPending = 0 := by omega
    intro r2 hr2 hpend2
    dsimp only at hr2 ⊢
    rw [hl, updateFirst_append_cons _ _ _ _ _ hbeq (by simp)] at hr2
    have hr2f : r2 = { r with total_pot := r.total_pot + wager } := by
      rcases List.mem_append.mp hr2 with hm | hm
      · exact absurd (List.countP_pos.mpr ⟨r2, hm, hpend2⟩) (by omega)
      · rcases List.mem_cons.mp hm with h9 | h9
        · exact h9
        · exact absurd (List.countP_pos.mpr ⟨r2, h9, hpend2⟩) (by omega)
    subst hr2f
    dsimp only
    have hsum : (((db.entries ++
        [({ raffle_id := r.id, participant_id := db.nextId,
            entry_count := wager / 10 } : Entry)]).filter
          (fun e2 => e2.raffle_id == r.id)).map (fun e2 => e2.entry_count)).sum =
        ((db.entries.filter (fun e2 => e2.raffle_id == r.id)).map
          (fun e2 => e2.entry_count)).sum + wager / 10 := by
      rw [List.filter_append]
      rw [List.filter_cons_of_pos (by simp)]
      simp
    have hbal := hpb r hrmem hpendr
    unfold entrySum entriesFor at hbal ⊢
    dsimp only
    rw [hsum]
    omega

theorem inv_step {db db2 : DB} (h : Inv db) (hs : Step db db2) : Inv db2 := by
  cases hs with
  | ofCurrent now db => exact inv_gcr h
  | ofSignup now name phone wager pin db => exact inv_signup h
  | ofVerify now pid db => exact inv_verify h
  | ofReject pid db => exact inv_reject h
  | ofDraw σ now rid db => exact draw_fst_inv h
  | ofTick σ now db => exact inv_tick h
  | ofTrigger σ now db => exact inv_trigger h
  | ofReset now db => exact inv_reset now db
  | ofResetTimer now db => exact inv_resetTimer h
  | ofConfig kvs db => exact inv_update_config h

theorem stepNR_step {db db2 : DB} (hs : StepNR db db2) : Step db db2 := by
  cases hs with
  | ofCurrent now db => exact Step.ofCurrent now db
  | ofSignup now name phone wager pin db => exact Step.ofSignup now name phone wager pin db
  | ofVerify now pid db => exact Step.ofVerify now pid db
  | ofDraw σ now rid db => exact Step.ofDraw σ now rid db
  | ofTick σ now db => exact Step.ofTick σ now db
  | ofTrigger σ now db => exact Step.ofTrigger σ now db
  | ofReset now db => exact Step.ofReset now db
  | ofResetTimer now db => exact Step.ofResetTimer now db
  | ofConfig kvs db => exact Step.ofConfig kvs db

theorem pb_stepNR {db db2 : DB} (h : Inv db) (hpb : potBalanced db) (hs : StepNR db db2) :
    potBalanced db2 := by
  cases hs with
  | ofCurrent now db => exact potBalanced_gcr h hpb
  | ofSignup now name phone wager pin db => exact pb_signup h hpb
  | ofVerify now pid db => exact pb_verify h hpb
  | ofDraw σ now rid db => exact draw_fst_pb h hpb
  | ofTick σ now db => exact pb_tick h hpb
  | ofTrigger σ now db => exact pb_trigger h hpb
  | ofReset now db => exact pb_reset now db
  | ofResetTimer now db => exact pb_resetTimer hpb
  | ofConfig kvs db => exact pb_update_config hpb

theorem reachable_inv {db : DB} (h : Reachable db) : Inv db := by
  obtain ⟨now0, hr⟩ := h
  induction hr with
  | refl => exact inv_init now0
  | tail hab hbc ih => exact inv_step ih hbc

theorem reachableNR_reachable {db : DB} (h : ReachableNR db) : Reachable db := by
  obtain ⟨now0, hr⟩ := h
  refine ⟨now0, ?_⟩
  induction hr with
  | refl => exact Relation.ReflTransGen.refl
  | tail hab hbc ih => exact Relation.ReflTransGen.tail ih (stepNR_step hbc)

theorem reachableNR_pb {db : DB} (h : ReachableNR db) : potBalanced db := by
  obtain ⟨now0, hr⟩ := h
  have hmain : Inv db ∧ potBalanced db := by
    induction hr with
    | refl => exact ⟨inv_init now0, pb_init now0⟩
    | tail hab hbc ih =>
      exact ⟨inv_step ih.1 (stepNR_step hbc), pb_stepNR ih.1 ih.2 hbc⟩
  exact hmain.2

/-! ### Payout arithmetic and weighted-pool facts -/

theorem floor_cast_mul_div (n a b : ℕ) (hb : 0 < b) :
    (⌊(n : ℚ) * ((a : ℚ) / (b : ℚ))⌋).toNat = n * a / b := by
  have hq : (n : ℚ) * ((a : ℚ) / (b : ℚ)) = ((n * a : ℕ) : ℚ) / ((b : ℕ) : ℚ) := by
    push_cast
    ring
  rw [hq]
  have hbq : (0 : ℚ) < ((b : ℕ) : ℚ) := by exact_mod_cast hb
  have h1 : ⌊((n * a : ℕ) : ℚ) / ((b : ℕ) : ℚ)⌋ = ((n * a / b : ℕ) : ℤ) := by
    rw [Int.floor_eq_iff]
    constructor
    · rw [le_div_iff hbq]
      exact_mod_cast Nat.div_mul_le_self (n * a) b
    · rw [div_lt_iff hbq]
      have hdm := Nat.div_add_mod (n * a) b
      have hml : (n * a) % b < b := Nat.mod_lt _ hb
      have h2 : n * a < (n * a / b + 1) * b := by
        have h3 : (n * a / b + 1) * b = b * (n * a / b) + b := by ring
        omega
      exact_mod_cast h2
  rw [h1]
  exact Int.toNat_natCast _

theorem payout_eq_div (n a b : ℕ) (q : ℚ) (hb : 0 < b) (hq : q = (a : ℚ) / (b : ℚ)) :
    payout n q = n * a / b := by
  unfold payout
  rw [hq]
  exact floor_cast_mul_div n a b hb

theorem payout_one (pp : ℕ) : payout pp 1 = pp := by
  unfold payout
  rw [mul_one]
  rw [Int.floor_natCast]
  exact Int.toNat_natCast _

theorem payout_frac58 (pp : ℕ) : payout pp (0.625 : ℚ) = pp * 5 / 8 := by
  unfold payout
  have he : (0.625 : ℚ) = ((5 : ℕ) : ℚ) / ((8 : ℕ) : ℚ) := by norm_num
  rw [he]
  exact floor_cast_mul_div pp 5 8 (by norm_num)

theorem payout_frac38 (pp : ℕ) : payout pp (0.375 : ℚ) = pp * 3 / 8 := by
  unfold payout
  have he : (0.375 : ℚ) = ((3 : ℕ) : ℚ) / ((8 : ℕ) : ℚ) := by norm_num
  rw [he]
  exact floor_cast_mul_div pp 3 8 (by norm_num)

theorem payout_two_bounds (pp : ℕ) :
    pp * 5 / 8 + pp * 3 / 8 ≤ pp ∧ pp - (pp * 5 / 8 + pp * 3 / 8) < 2 := by
  omega

theorem weightedEntries_ne_nil {entries : List Entry} (hne : entries ≠ [])
    (hpos : ∀ e ∈ entries, 1 ≤ e.entry_count) : weightedEntries entries ≠ [] := by
  cases entries with
  | nil => exact absurd rfl hne
  | cons e rest =>
    unfold weightedEntries
    rw [List.flatMap_cons]
    have hc := hpos e (by simp)
    intro hcontra
    rw [List.append_eq_nil] at hcontra
    have := hcontra.1
    rw [List.replicate_eq_nil] at this
    omega

theorem mem_weightedEntries {entries : List Entry} {x : ℕ}
    (h : x ∈ weightedEntries entries) : ∃ e ∈ entries, e.participant_id = x := by
  unfold weightedEntries at h
  rw [List.mem_flatMap] at h
  obtain ⟨e, he, hx⟩ := h
  rw [List.eq_of_mem_replicate hx]
  exact ⟨e, he, rfl⟩

theorem dedup_length_pos {l : List ℕ} (h : l ≠ []) : 1 ≤ l.dedup.length := by
  have h2 : l.dedup ≠ [] := by
    intro hc
    exact h ((List.dedup_eq_nil l).mp hc)
  exact List.length_pos.mpr h2

theorem exists_two_distinct_of_dedup {l : List ℕ} (h : 2 ≤ l.dedup.length) :
    ∃ a ∈ l, ∃ b ∈ l, a ≠ b := by
  cases hdd : l.dedup with
  | nil => rw [hdd] at h; simp at h
  | cons a t =>
    cases ht : t with
    | nil => rw [hdd, ht] at h; simp at h
    | cons b t2 =>
      have hnd := List.nodup_dedup l
      rw [hdd, ht] at hnd
      have hab : a ≠ b := by
        rw [List.nodup_cons] at hnd
        intro he
        exact hnd.1 (he ▸ List.mem_cons.mpr (Or.inl rfl))
      have hal : a ∈ l := List.mem_dedup.mp (by rw [hdd]; simp)
      have hbl : b ∈ l := List.mem_dedup.mp (by rw [hdd, ht]; simp)
      exact ⟨a, hal, b, hbl, hab⟩

theorem choiceAt_mem {σ : ℕ → ℕ} {k : ℕ} {l : List ℕ} (h : l ≠ []) : choiceAt σ k l ∈ l := by
  unfold choiceAt
  have hlen : 0 < l.length := List.length_pos.mpr h
  have hlt : σ k % l.length < l.length := Nat.mod_lt _ hlen
  rw [List.getD_eq_getElem l 0 hlt]
  exact List.getElem_mem hlt

theorem retrySelect_of_not_mem (σ : ℕ → ℕ) (sel : List ℕ) (fuel w k : ℕ) (rem : List ℕ)
    (h : sel.contains w = false) :
    retrySelect σ sel (fuel + 1) w k rem = (w, rem, k) := by
  unfold retrySelect
  rw [if_neg (by simpa using h)]

theorem find?_id_isSome {parts : List Participant} {w : ℕ}
    (h : ∃ q ∈ parts, q.id = w) :
    ∃ p2, parts.find? (fun p => p.id == w) = some p2 ∧ p2.id = w ∧ p2 ∈ parts := by
  have hs : (parts.find? (fun p => p.id == w)).isSome = true := by
    rw [List.find?_isSome]
    obtain ⟨q, hq, hqe⟩ := h
    exact ⟨q, hq, by simp [hqe]⟩
  obtain ⟨p2, hp2⟩ := Option.isSome_iff_exists.mp hs
  refine ⟨p2, hp2, ?_, List.mem_of_find?_eq_some hp2⟩
  have := List.find?_some hp2
  simpa using this

theorem selectWinners_single (σ : ℕ → ℕ) (parts : List Participant) (pp rid : ℕ)
    (dist : ℚ) (pos k : ℕ) (rem : List ℕ)
    (hne : rem ≠ []) (hlk : ∀ x ∈ rem, ∃ q ∈ parts, q.id = x) :
    ∃ w p2, w ∈ rem ∧ p2 ∈ parts ∧ p2.id = w ∧
      selectWinners σ parts pp rid [dist] pos k [] rem =
        ([{ raffle_id := rid, participant_id := w, amount_won := payout pp dist,
            position := pos }],
         [{ name := p2.name, amount := payout pp dist, position := pos }]) := by
  have hw0 : choiceAt σ k rem ∈ rem := choiceAt_mem hne
  obtain ⟨p2, hp2, hp2id, hp2mem⟩ := find?_id_isSome (hlk _ hw0)
  refine ⟨choiceAt σ k rem, p2, hw0, hp2mem, hp2id, ?_⟩
  rw [selectWinners]
  rw [if_neg (by simpa using hne)]
  dsimp only
  rw [retrySelect_of_not_mem σ [] 99 (choiceAt σ k rem) (k + 1) rem rfl]
  dsimp only
  rw [if_neg (by simp)]
  rw [hp2]
  dsimp only
  simp only [selectWinners]
  simp [hp2id]

theorem selectWinners_pair (σ : ℕ → ℕ) (parts : List Participant) (pp rid : ℕ)
    (d1 d2 : ℚ) (pos k : ℕ) (rem : List ℕ)
    (hne : rem ≠ []) (hlk : ∀ x ∈ rem, ∃ q ∈ parts, q.id = x)
    (htwo : ∃ a ∈ rem, ∃ b ∈ rem, a ≠ b) :
    ∃ w1 w2 p1 p2, w1 ∈ rem ∧ w2 ∈ rem ∧ w1 ≠ w2 ∧
      p1 ∈ parts ∧ p2 ∈ parts ∧ p1.id = w1 ∧ p2.id = w2 ∧
      selectWinners σ parts pp rid [d1, d2] pos k [] rem =
        ([{ raffle_id := rid, participant_id := w1, amount_won := payout pp d1,
            position := pos },
          { raffle_id := rid, participant_id := w2, amount_won := payout pp d2,
            position := pos + 1 }],
         [{ name := p1.name, amount := payout pp d1, position := pos },
          { name := p2.name, amount := payout pp d2, position := pos + 1 }]) := by
  have hw1 : choiceAt σ k rem ∈ rem := choiceAt_mem hne
  obtain ⟨p1, hp1, hp1id, hp1mem⟩ := find?_id_isSome (hlk _ hw1)
  have hrem2ne : rem.filter (fun e => e != choiceAt σ k rem) ≠ [] := by
    obtain ⟨a, ha, b, hb, hab⟩ := htwo
    have hy : ∃ y ∈ rem, y ≠ choiceAt σ k rem := by
      by_cases haw : a = choiceAt σ k rem
      · exact ⟨b, hb, by rw [← haw]; exact fun hc => hab hc.symm⟩
      · exact ⟨a, ha, haw⟩
    obtain ⟨y, hy1, hy2⟩ := hy
    exact List.ne_nil_of_mem (List.mem_filter.mpr ⟨hy1, by simpa using hy2⟩)
  have hw2 : choiceAt σ (k + 1) (rem.filter (fun e => e != choiceAt σ k rem)) ∈
      rem.filter (fun e => e != choiceAt σ k rem) := choiceAt_mem hrem2ne
  have hw2mem : choiceAt σ (k + 1) (rem.filter (fun e => e != choiceAt σ k rem)) ∈ rem ∧
      choiceAt σ (k + 1) (rem.filter (fun e => e != choiceAt σ k rem)) ≠ choiceAt σ k rem := by
    have h2 := List.mem_filter.mp hw2
    exact ⟨h2.1, by simpa using h2.2⟩
  obtain ⟨p2, hp2, hp2id, hp2mem⟩ := find?_id_isSome (hlk _ hw2mem.1)
  refine ⟨choiceAt σ k rem, choiceAt σ (k + 1) (rem.filter (fun e => e != choiceAt σ k rem)),
    p1, p2, hw1, hw2mem.1, fun hc => hw2mem.2 hc.symm,
    hp1mem, hp2mem, hp1id, hp2id, ?_⟩
  rw [selectWinners]
  rw [if_neg (by simpa using hne)]
  dsimp only
  rw [retrySelect_of_not_mem σ [] 99 (choiceAt σ k rem) (k + 1) rem rfl]
  dsimp only
  rw [if_neg (by simp)]
  rw [hp1]
  dsimp only
  rw [selectWinners]
  rw [if_neg (by simpa using hrem2ne)]
  dsimp only
  rw [retrySelect_of_not_mem σ [choiceAt σ k rem] 99
    (choiceAt σ (k + 1) (rem.filter (fun e => e != choiceAt σ k rem))) (k + 2)
    (rem.filter (fun e => e != choiceAt σ k rem))
    (by simp [hw2mem.2])]
  dsimp only
  rw [if_neg (by simp [hw2mem.2])]
  rw [hp2]
  dsimp only
  simp only [selectWinners]
  simp [hp1id, hp2id]

theorem setRaffleStatus_participants (rid : ℕ) (s : String) (db : DB) :
    (setRaffleStatus rid s db).participants = db.participants := rfl

theorem setRaffleStatus_winners (rid : ℕ) (s : String) (db : DB) :
    (setRaffleStatus rid s db).winners = db.winners := rfl

theorem setRaffleStatus_nextId (rid : ℕ) (s : String) (db : DB) :
    (setRaffleStatus rid s db).nextId = db.nextId := rfl

theorem complete_rollover_char (now : ℕ) {M : DB} {rid0 : ℕ}
    (hfindM : ∃ a, M.raffles.find? (fun x => x.id == rid0) = some a)
    (h0 : pendingCount (setRaffleStatus rid0 "completed" M) = 0) :
    (get_current_raffle now (setRaffleStatus rid0 "completed" M)).1.winners = M.winners ∧
    (∃ rc ∈ (get_current_raffle now (setRaffleStatus rid0 "completed" M)).1.raffles,
        rc.id = rid0 ∧ rc.status = "completed") ∧
    (∃ rp ∈ (get_current_raffle now (setRaffleStatus rid0 "completed" M)).1.raffles,
        raffleIsPending rp = true ∧ rp.id = M.nextId) := by
  have hnone := find?_none_of_pendingCount_zero h0
  obtain ⟨a, ha⟩ := hfindM
  obtain ⟨l1, l2, hl, hl1, hu⟩ :=
    updateFirst_decomp (fun x => ({ x with status := "completed" } : Raffle)) ha
  have haid : a.id = rid0 := by simpa using List.find?_some ha
  refine ⟨?_, ?_, ?_⟩
  · rw [gcr_none_fst hnone]
    rfl
  · rw [gcr_none_fst hnone]
    dsimp only
    refine ⟨{ a with status := "completed" }, ?_, by simpa using haid, rfl⟩
    apply List.mem_append.mpr
    left
    show _ ∈ (setRaffleStatus rid0 "completed" M).raffles
    unfold setRaffleStatus
    dsimp only
    rw [hu]
    simp
  · rw [gcr_none_fst hnone, gcr_none_snd hnone]
    dsimp only
    refine ⟨_, List.mem_append_right _ (List.mem_singleton.mpr rfl), ?_, ?_⟩
    · rfl
    · rfl

theorem draw_empty_char {σ : ℕ → ℕ} {now : ℕ} {rid : Option ℕ} {db : DB} {raffle : Raffle}
    (h : Inv db) (hT : drawTarget rid db = some raffle)
    (hpend : raffleIsPending raffle = true) (hne : entriesFor db raffle.id = []) :
    ∃ db3, execute_raffle_draw σ now rid db =
        (db3, some { winners := [], pot := 0, house_cut := none, raffle_id := raffle.id }) ∧
      db3.winners = db.winners ∧ pendingCount db3 = 1 ∧
      (∃ rc ∈ db3.raffles, rc.id = raffle.id ∧ rc.status = "completed") ∧
      (∃ rp ∈ db3.raffles, raffleIsPending rp = true ∧ rp.id = db.nextId) ∧
      (∀ w ∈ db.winners, w.raffle_id ≠ raffle.id) := by
  have hmem := drawTarget_mem hT
  have hc1 : Core (setRaffleStatus raffle.id "drawing" db) :=
    core_setRaffleStatus _ _ (inv_core h)
  have h0 : pendingCount (setRaffleStatus raffle.id "drawing" db) = 0 :=
    pendingCount_complete h.one_pending h.raffle_ids_nodup hmem hpend _ (by decide)
  have hfcomp : ∀ a : Raffle, raffleIsPending { a with status := "completed" } = false := by
    intro a
    rfl
  have h02 : pendingCount (setRaffleStatus raffle.id "completed"
      (setRaffleStatus raffle.id "drawing" db)) = 0 :=
    countP_zero_updateFirst h0 hfcomp
  have hfindM : ∃ a, (setRaffleStatus raffle.id "drawing" db).raffles.find?
      (fun x => x.id == raffle.id) = some a := by
    obtain ⟨l1, l2, hl, hbeq, _, _⟩ := raffles_decomp_of_mem h.raffle_ids_nodup hmem
    refine ⟨{ raffle with status := "drawing" }, ?_⟩
    unfold setRaffleStatus
    dsimp only
    rw [hl, updateFirst_append_cons _ _ _ _ _ hbeq (by simp)]
    exact find?_append_cons _ _ _ _ hbeq (by simp)
  obtain ⟨hwinners, hcomp, hpendnew⟩ :=
    complete_rollover_char now hfindM h02
  have hinv3 : Inv (get_current_raffle now (setRaffleStatus raffle.id "completed"
      (setRaffleStatus raffle.id "drawing" db))).1 :=
    inv_rollover (core_setRaffleStatus _ _ hc1) (find?_none_of_pendingCount_zero h02)
  unfold execute_raffle_draw
  rw [hT]
  dsimp only
  rw [if_pos hpend]
  have hemp : (entriesFor (setRaffleStatus raffle.id "drawing" db) raffle.id).isEmpty = true := by
    rw [entriesFor_setRaffleStatus, hne]
    rfl
  rw [if_pos hemp]
  refine ⟨_, rfl, hwinners, hinv3.one_pending, hcomp, hpendnew, ?_⟩
  exact fun w hw => h.no_pending_winner raffle hmem hpend w hw

theorem draw_nonempty_char {σ : ℕ → ℕ} {now : ℕ} {rid : Option ℕ} {db : DB} {raffle : Raffle}
    (h : Inv db) (hT : drawTarget rid db = some raffle)
    (hpend : raffleIsPending raffle = true) (hne : entriesFor db raffle.id ≠ []) :
    ∃ db3 recs data,
      execute_raffle_draw σ now rid db =
        (db3,
          some { winners := data, pot := raffle.total_pot,
                 house_cut := some (houseCut raffle.total_pot), raffle_id := raffle.id }) ∧
      recs.map (fun w => w.amount_won) =
        (distributionsFor (min 2 (weightedEntries (entriesFor db raffle.id)).dedup.length)).map
          (payout (raffle.total_pot - houseCut raffle.total_pot)) ∧
      data.map (fun w => w.amount) = recs.map (fun w => w.amount_won) ∧
      recs.map (fun w => w.position) =
        List.range' 1 (min 2 (weightedEntries (entriesFor db raffle.id)).dedup.length) ∧
      data.map (fun w => w.position) = recs.map (fun w => w.position) ∧
      (recs.map (fun w => w.participant_id)).Nodup ∧
      (∀ w ∈ recs, w.raffle_id = raffle.id) ∧
      db3.winners = db.winners ++ recs ∧
      pendingCount db3 = 1 ∧
      (∃ rc ∈ db3.raffles, rc.id = raffle.id ∧ rc.status = "completed") ∧
      (∃ rp ∈ db3.raffles, raffleIsPending rp = true ∧ rp.id = db.nextId) ∧
      (∀ w ∈ db.winners, w.raffle_id ≠ raffle.id) := by
  have hmem := drawTarget_mem hT
  have hc1 : Core (setRaffleStatus raffle.id "drawing" db) :=
    core_setRaffleStatus _ _ (inv_core h)
  have h0 : pendingCount (setRaffleStatus raffle.id "drawing" db) = 0 :=
    pendingCount_complete h.one_pending h.raffle_ids_nodup hmem hpend _ (by decide)
  have hfcomp : ∀ a : Raffle, raffleIsPending { a with status := "completed" } = false := by
    intro a
    rfl
  have hwne : weightedEntries (entriesFor db raffle.id) ≠ [] := by
    apply weightedEntries_ne_nil hne
    intro e he
    exact h.entry_count_pos e (List.mem_filter.mp he).1
  have hd1 : 1 ≤ (weightedEntries (entriesFor db raffle.id)).dedup.length :=
    dedup_length_pos hwne
  have hlk : ∀ x ∈ weightedEntries (entriesFor db raffle.id),
      ∃ q ∈ db.participants, q.id = x := by
    intro x hx
    obtain ⟨e, he, hepid⟩ := mem_weightedEntries hx
    obtain ⟨q, hq, hqid⟩ := h.entry_part_exists e (List.mem_filter.mp he).1
    exact ⟨q, hq, by rw [hqid, hepid]⟩
  have hfindM : ∃ a, (setRaffleStatus raffle.id "drawing" db).raffles.find?
      (fun x => x.id == raffle.id) = some a := by
    obtain ⟨l1, l2, hl, hbeq, _, _⟩ := raffles_decomp_of_mem h.raffle_ids_nodup hmem
    refine ⟨{ raffle with status := "drawing" }, ?_⟩
    unfold setRaffleStatus
    dsimp only
    rw [hl, updateFirst_append_cons _ _ _ _ _ hbeq (by simp)]
    exact find?_append_cons _ _ _ _ hbeq (by simp)
  have hnopw : ∀ w ∈ db.winners, w.raffle_id ≠ raffle.id :=
    fun w hw => h.no_pending_winner raffle hmem hpend w hw
  unfold execute_raffle_draw
  rw [hT]
  dsimp only
  rw [if_pos hpend]
  simp only [entriesFor_setRaffleStatus, setRaffleStatus_participants]
  rw [if_neg (by simpa using hne)]
  rw [if_neg (by simp only [beq_iff_eq]; omega)]
  rcases Nat.lt_or_ge (weightedEntries (entriesFor db raffle.id)).dedup.length 2 with hd | hd
  · have hmin : min 2 (weightedEntries (entriesFor db raffle.id)).dedup.length = 1 := by omega
    rw [hmin]
    have hdists : distributionsFor 1 = [(1 : ℚ)] := rfl
    rw [hdists]
    obtain ⟨w, p2, hwrem, hp2mem, hp2id, hsel⟩ :=
      selectWinners_single σ db.participants (raffle.total_pot - houseCut raffle.total_pot)
        raffle.id 1 1 0 (weightedEntries (entriesFor db raffle.id)) hwne hlk
    rw [hsel]
    dsimp only
    have hws : ∀ wr ∈ [({ raffle_id := raffle.id, participant_id := w, amount_won := payout (raffle.total_pot - houseCut raffle.total_pot) 1, position := 1 } : Winner)],
        wr.raffle_id < (setRaffleStatus raffle.id "drawing" db).nextId := by
      intro wr hwr
      simp at hwr
      subst hwr
      exact h.raffle_ids_lt raffle hmem
    have hc2 : Core { setRaffleStatus raffle.id "drawing" db with
        winners := (setRaffleStatus raffle.id "drawing" db).winners ++
          [({ raffle_id := raffle.id, participant_id := w, amount_won := payout (raffle.total_pot - houseCut raffle.total_pot) 1, position := 1 } : Winner)] } :=
      core_append_winners hc1 hws
    have h02 : pendingCount (setRaffleStatus raffle.id "completed"
        { setRaffleStatus raffle.id "drawing" db with
          winners := (setRaffleStatus raffle.id "drawing" db).winners ++
            [({ raffle_id := raffle.id, participant_id := w, amount_won := payout (raffle.total_pot - houseCut raffle.total_pot) 1, position := 1 } : Winner)] }) = 0 :=
      countP_zero_updateFirst h0 hfcomp
    have hfindM2 : ∃ a, ({ setRaffleStatus raffle.id "drawing" db with
        winners := (setRaffleStatus raffle.id "drawing" db).winners ++ [({ raffle_id := raffle.id, participant_id := w, amount_won := payout (raffle.total_pot - houseCut raffle.total_pot) 1, position := 1 } : Winner)] } : DB).raffles.find?
          (fun x => x.id == raffle.id) = some a := hfindM
    obtain ⟨hwinners, hcomp, hpendnew⟩ := complete_rollover_char now hfindM2 h02
    refine ⟨_, [({ raffle_id := raffle.id, participant_id := w, amount_won := payout (raffle.total_pot - houseCut raffle.total_pot) 1, position := 1 } : Winner)], _, rfl, by simp, by simp, rfl, by simp,
      by simp, by simp, ?_, ?_, hcomp, hpendnew, hnopw⟩
    · exact hwinners
    · exact (inv_rollover (core_setRaffleStatus _ _ hc2)
        (find?_none_of_pendingCount_zero h02)).one_pending
  · have hmin : min 2 (weightedEntries (entriesFor db raffle.id)).dedup.length = 2 := by omega
    rw [hmin]
    have hdists : distributionsFor 2 = [(0.625 : ℚ), (0.375 : ℚ)] := rfl
    rw [hdists]
    obtain ⟨w1, w2, p1, p2, hw1rem, hw2rem, hne12, hp1mem, hp2mem, hp1id, hp2id, hsel⟩ :=
      selectWinners_pair σ db.participants (raffle.total_pot - houseCut raffle.total_pot)
        raffle.id 0.625 0.375 1 0 (weightedEntries (entriesFor db raffle.id)) hwne hlk
        (exists_two_distinct_of_dedup hd)
    rw [hsel]
    dsimp only
    have hws : ∀ wr ∈ [({ raffle_id := raffle.id, participant_id := w1, amount_won := payout (raffle.total_pot - houseCut raffle.total_pot) 0.625, position := 1 } : Winner), ({ raffle_id := raffle.id, participant_id := w2, amount_won := payout (raffle.total_pot - houseCut raffle.total_pot) 0.375, position := 2 } : Winner)],
        wr.raffle_id < (setRaffleStatus raffle.id "drawing" db).nextId := by
      intro wr hwr
      rcases List.mem_cons.mp hwr with h9 | h9
      · subst h9
        exact h.raffle_ids_lt raffle hmem
      · simp at h9
        subst h9
        exact h.raffle_ids_lt raffle hmem
    have hc2 : Core { setRaffleStatus raffle.id "drawing" db with
        winners := (setRaffleStatus raffle.id "drawing" db).winners ++
          [({ raffle_id := raffle.id, participant_id := w1, amount_won := payout (raffle.total_pot - houseCut raffle.total_pot) 0.625, position := 1 } : Winner), ({ raffle_id := raffle.id, participant_id := w2, amount_won := payout (raffle.total_pot - houseCut raffle.total_pot) 0.375, position := 2 } : Winner)] } :=
      core_append_winners hc1 hws
    have h02 : pendingCount (setRaffleStatus raffle.id "completed"
        { setRaffleStatus raffle.id "drawing" db with
          winners := (setRaffleStatus raffle.id "drawing" db).winners ++
            [({ raffle_id := raffle.id, participant_id := w1, amount_won := payout (raffle.total_pot - houseCut raffle.total_pot) 0.625, position := 1 } : Winner), ({ raffle_id := raffle.id, participant_id := w2, amount_won := payout (raffle.total_pot - houseCut raffle.total_pot) 0.375, position := 2 } : Winner)] }) = 0 :=
      countP_zero_updateFirst h0 hfcomp
    have hfindM2 : ∃ a, ({ setRaffleStatus raffle.id "drawing" db with
        winners := (setRaffleStatus raffle.id "drawing" db).winners ++ [({ raffle_id := raffle.id, participant_id := w1, amount_won := payout (raffle.total_pot - houseCut raffle.total_pot) 0.625, position := 1 } : Winner), ({ raffle_id := raffle.id, participant_id := w2, amount_won := payout (raffle.total_pot - houseCut raffle.total_pot) 0.375, position := 2 } : Winner)] } : DB).raffles.find?
          (fun x => x.id == raffle.id) = some a := hfindM
    obtain ⟨hwinners, hcomp, hpendnew⟩ := complete_rollover_char now hfindM2 h02
    refine ⟨_, [({ raffle_id := raffle.id, participant_id := w1, amount_won := payout (raffle.total_pot - houseCut raffle.total_pot) 0.625, position := 1 } : Winner), ({ raffle_id := raffle.id, participant_id := w2, amount_won := payout (raffle.total_pot - houseCut raffle.total_pot) 0.375, position := 2 } : Winner)], _, rfl, by simp, by simp, rfl, by simp,
      by simp [hne12], by simp, ?_, ?_, hcomp, hpendnew, hnopw⟩
    · exact hwinners
    · exact (inv_rollover (core_setRaffleStatus _ _ hc2)
        (find?_none_of_pendingCount_zero h02)).one_pending

/-! ### Config independence of the draw, no-op draws, and reject characterisation -/

theorem entriesFor_mk (c : List (String × String)) (ps : List Participant) (rs : List Raffle)
    (es : List Entry) (ws : List Winner) (n x : ℕ) :
    entriesFor ⟨c, ps, rs, es, ws, n⟩ x = es.filter (fun e => e.raffle_id == x) := rfl

theorem draw_result_configs (σ : ℕ → ℕ) (now : ℕ) (rid : Option ℕ)
    (c c' : List (String × String)) (ps : List Participant) (rs : List Raffle)
    (es : List Entry) (ws : List Winner) (n : ℕ) :
    (execute_raffle_draw σ now rid ⟨c, ps, rs, es, ws, n⟩).2 =
    (execute_raffle_draw σ now rid ⟨c', ps, rs, es, ws, n⟩).2 := by
  unfold execute_raffle_draw drawTarget
  dsimp only
  simp only [entriesFor_setRaffleStatus, entriesFor_mk, setRaffleStatus_participants]
  cases rid with
  | none =>
    dsimp only
    cases hT : rs.find? raffleIsPending with
    | none => rfl
    | some raffle =>
      dsimp only
      by_cases hpend : raffleIsPending raffle = true
      · rw [if_pos hpend, if_pos hpend]
        by_cases hemp : ((es.filter (fun e => e.raffle_id == raffle.id)).isEmpty) = true
        · rw [if_pos hemp, if_pos hemp]
        · rw [if_neg hemp, if_neg hemp]
          by_cases hwc : (min 2 (weightedEntries
              (es.filter (fun e => e.raffle_id == raffle.id))).dedup.length == 0) = true
          · rw [if_pos hwc, if_pos hwc]
          · rw [if_neg hwc, if_neg hwc]
      · rw [if_neg hpend, if_neg hpend]
  | some i =>
    dsimp only
    cases hT : rs.find? (fun r => r.id == i) with
    | none => rfl
    | some raffle =>
      dsimp only
      by_cases hpend : raffleIsPending raffle = true
      · rw [if_pos hpend, if_pos hpend]
        by_cases hemp : ((es.filter (fun e => e.raffle_id == raffle.id)).isEmpty) = true
        · rw [if_pos hemp, if_pos hemp]
        · rw [if_neg hemp, if_neg hemp]
          by_cases hwc : (min 2 (weightedEntries
              (es.filter (fun e => e.raffle_id == raffle.id))).dedup.length == 0) = true
          · rw [if_pos hwc, if_pos hwc]
          · rw [if_neg hwc, if_neg hwc]
      · rw [if_neg hpend, if_neg hpend]

theorem draw_not_pending_noop (σ : ℕ → ℕ) (now : ℕ) {db : DB} {i : ℕ} {r : Raffle}
    (hfind : db.raffles.find? (fun x => x.id == i) = some r)
    (hnp : raffleIsPending r = false) :
    execute_raffle_draw σ now (some i) db = (db, none) := by
  unfold execute_raffle_draw drawTarget
  dsimp only
  rw [hfind]
  dsimp only
  rw [if_neg (by simp [hnp])]

theorem trigger_err_of_none {σ : ℕ → ℕ} {now : ℕ} {db : DB}
    (hnone : (execute_raffle_draw σ now none db).2 = none) :
    trigger_draw σ now db =
      ((execute_raffle_draw σ now none db).1, .err 400 "No active raffle to draw") := by
  unfold trigger_draw
  dsimp only
  rw [hnone]

theorem reject_char {pid : ℕ} {db : DB} {p0 : Participant}
    (hF : db.participants.find? (fun p => p.id == pid) = some p0) :
    reject_participant pid db =
      ({ db with entries := db.entries.filter (fun e => e.participant_id != pid),
                 participants := db.participants.filter (fun p => p.id != pid) },
       .ok true) := by
  unfold reject_participant
  rw [hF]

/-! ### Final helpers for the claims -/

theorem draw_some_target {σ : ℕ → ℕ} {now : ℕ} {rid : Option ℕ} {db db2 : DB}
    {res : DrawResult} (hdraw : execute_raffle_draw σ now rid db = (db2, some res)) :
    ∃ raffle, drawTarget rid db = some raffle ∧ raffleIsPending raffle = true := by
  unfold execute_raffle_draw at hdraw
  cases hT : drawTarget rid db with
  | none =>
    rw [hT] at hdraw
    simp at hdraw
  | some raffle =>
    rw [hT] at hdraw
    dsimp only at hdraw
    by_cases hpend : raffleIsPending raffle = true
    · exact ⟨raffle, rfl, hpend⟩
    · rw [if_neg hpend] at hdraw
      simp at hdraw

theorem draw_none_fst {σ : ℕ → ℕ} {now : ℕ} {rid : Option ℕ} {db : DB}
    (hnone : (execute_raffle_draw σ now rid db).2 = none) :
    (execute_raffle_draw σ now rid db).1 = db := by
  unfold execute_raffle_draw at hnone ⊢
  cases hT : drawTarget rid db with
  | none => rfl
  | some raffle =>
    rw [hT] at hnone
    dsimp only at hnone ⊢
    by_cases hpend : raffleIsPending raffle = true
    · rw [if_pos hpend] at hnone
      by_cases hemp : (entriesFor (setRaffleStatus raffle.id "drawing" db)
          raffle.id).isEmpty = true
      · rw [if_pos hemp] at hnone
        simp at hnone
      · rw [if_neg hemp] at hnone
        by_cases hwc : (min 2 (weightedEntries (entriesFor (setRaffleStatus raffle.id
            "drawing" db) raffle.id)).dedup.length == 0) = true
        · rw [if_pos hwc] at hnone
          simp at hnone
        · rw [if_neg hwc] at hnone
          simp at hnone
    · rw [if_neg hpend]

theorem distributionsFor_length_one : (distributionsFor 1).length = 1 := rfl

theorem distributionsFor_length_two : (distributionsFor 2).length = 2 := rfl

theorem reachable_dbOne : Reachable dbOne := by
  refine ⟨0, ?_⟩
  exact Relation.ReflTransGen.tail Relation.ReflTransGen.refl
    (Step.ofSignup 0 "alice" "0801" 10 "1234" (initialDB 0))

theorem reachable_dbTwo : Reachable dbTwo := by
  refine ⟨0, ?_⟩
  have s1 := Step.ofConfig
    [("max_winners", "5"), ("payout_fractions", "0.40,0.25,0.18,0.10,0.07"),
     ("house_rate", "0.10")] (initialDB 0)
  have s2 := Step.ofSignup 0 "alice" "0801" 50 "1234"
    (update_config
      [("max_winners", "5"), ("payout_fractions", "0.40,0.25,0.18,0.10,0.07"),
       ("house_rate", "0.10")] (initialDB 0))
  have s3 := Step.ofSignup 0 "bob" "0802" 50 "1234"
    ((signup 0 "alice" "0801" 50 "1234"
      (update_config
        [("max_winners", "5"), ("payout_fractions", "0.40,0.25,0.18,0.10,0.07"),
         ("house_rate", "0.10")] (initialDB 0))).1)
  exact Relation.ReflTransGen.tail
    (Relation.ReflTransGen.tail (Relation.ReflTransGen.tail Relation.ReflTransGen.refl s1) s2) s3

theorem reachable_dbDone : Reachable dbDone := by
  obtain ⟨now0, hr⟩ := reachable_dbOne
  exact ⟨now0, Relation.ReflTransGen.tail hr (Step.ofDraw sigma0 0 none dbOne)⟩

theorem reachable_dbRejected : Reachable dbRejected := by
  obtain ⟨now0, hr⟩ := reachable_dbOne
  exact ⟨now0, Relation.ReflTransGen.tail hr (Step.ofReject 2 dbOne)⟩

/-! ### The claims -/

/-- C1: at every reachable state at most one raffle has status pending, and
after any completed draw exactly one pending raffle exists —
execute_raffle_draw marks the drawn raffle completed and invokes
get_current_raffle, which creates a pending raffle only when none exists. -/
theorem claim_C1_one_pending (db : DB) (h : Reachable db) :
    pendingCount db ≤ 1 ∧
    ∀ (σ : ℕ → ℕ) (now : ℕ) (rid : Option ℕ) (db2 : DB) (res : DrawResult),
      execute_raffle_draw σ now rid db = (db2, some res) → pendingCount db2 = 1 := by
  have hinv := reachable_inv h
  have hone := hinv.one_pending
  refine ⟨by omega, ?_⟩
  intro σ now rid db2 res hdraw
  have hstep := Step.ofDraw σ now rid db
  rw [hdraw] at hstep
  exact (inv_step hinv hstep).one_pending

/-- C1 witness: the startup state has one pending raffle, and drawing it
leaves exactly one pending raffle. -/
theorem claim_C1_witness :
    pendingCount (initialDB 0) ≤ 1 ∧
    pendingCount (execute_raffle_draw sigma0 0 none (initialDB 0)).1 = 1 := by
  have h := claim_C1_one_pending (initialDB 0) ⟨0, Relation.ReflTransGen.refl⟩
  refine ⟨h.1, ?_⟩
  exact h.2 sigma0 0 none (execute_raffle_draw sigma0 0 none (initialDB 0)).1
    { winners := [], pot := 0, house_cut := none, raffle_id := 1 } (by decide)

/-- C4 counterexample: on a state whose only raffle is completed, the draw is
a no-op returning the None signal, but the manual HTTP trigger converts that
outcome into an HTTP 400 error response — the two callers do not treat it
identically as a non-error. -/
theorem claim_C4_counterexample :
    execute_raffle_draw sigma0 0 (some 1) dbNonePending = (dbNonePending, none) ∧
    (trigger_draw sigma0 0 dbNonePending).2 = .err 400 "No active raffle to draw" ∧
    (trigger_draw sigma0 0 dbNonePending).2.isErr = true := by
  refine ⟨by decide, by decide, by decide⟩

/-- C4 amended: attempting to draw a raffle not in pending state is a no-op
that leaves the state unchanged and returns None (the nothing-to-draw signal);
the scheduler discards this outcome, but the manual HTTP trigger converts it
into an HTTP 400 error response. -/
theorem claim_C4_noop (σ : ℕ → ℕ) (now : ℕ) (db : DB) (i : ℕ) (r : Raffle)
    (hfind : db.raffles.find? (fun x => x.id == i) = some r)
    (hnp : raffleIsPending r = false) :
    execute_raffle_draw σ now (some i) db = (db, none) ∧
    ∀ db2 : DB, (execute_raffle_draw σ now none db2).2 = none →
      trigger_draw σ now db2 = (db2, .err 400 "No active raffle to draw") := by
  constructor
  · exact draw_not_pending_noop σ now hfind hnp
  · intro db2 hnone
    rw [trigger_err_of_none hnone, draw_none_fst hnone]

/-- C4 witness: the no-op and the 400 mapping at the concrete completed-only
state. -/
theorem claim_C4_witness :
    execute_raffle_draw sigma0 0 (some 1) dbNonePending = (dbNonePending, none) ∧
    ∀ db2 : DB, (execute_raffle_draw sigma0 0 none db2).2 = none →
      trigger_draw sigma0 0 db2 = (db2, .err 400 "No active raffle to draw") :=
  claim_C4_noop sigma0 0 dbNonePending 1
    { id := 1, draw_time := 0, total_pot := 0, status := "completed" }
    (by decide) (by decide)

/-- C5 counterexample: after a signup of 10 and a reject, the pending raffle
still has total_pot 10 while it has no entries at all — reachable state where
the pot equality fails. -/
theorem claim_C5_counterexample :
    Reachable dbRejected ∧ ¬ potBalanced dbRejected := by
  refine ⟨reachable_dbRejected, ?_⟩
  unfold potBalanced
  decide

/-- C5 amended: the pot equality total_pot = 10 × Σ entry_count holds for the
pending raffle at every state reachable without reject_participant; the
reject operation deletes entries while leaving every raffle row — hence
total_pot — unchanged, which is what breaks the equality. -/
theorem claim_C5_pot_balance (db : DB) (h : ReachableNR db) :
    potBalanced db ∧ ∀ pid, (reject_participant pid db).1.raffles = db.raffles := by
  refine ⟨reachableNR_pb h, ?_⟩
  intro pid
  unfold reject_participant
  cases hF : db.participants.find? (fun p => p.id == pid) with
  | none => rfl
  | some p0 => rfl

/-- C5 witness: the pot balance at the startup state, and reject leaving the
raffle table unchanged there. -/
theorem claim_C5_witness :
    potBalanced (initialDB 0) ∧
    ∀ pid, (reject_participant pid (initialDB 0)).1.raffles = (initialDB 0).raffles :=
  claim_C5_pot_balance (initialDB 0) ⟨0, Relation.ReflTransGen.refl⟩

/-- C8 counterexample: a reachable state with an entry row belonging to the
completed raffle 1; rejecting the participant deletes that completed-raffle
entry as well, so entries of raffles that left pending are not immune. -/
theorem claim_C8_counterexample :
    Reachable dbDone ∧
    (∃ e ∈ dbDone.entries, e.raffle_id = 1) ∧
    (∃ rc ∈ dbDone.raffles, rc.id = 1 ∧ rc.status = "completed") ∧
    entriesFor (reject_participant 2 dbDone).1 1 = [] := by
  refine ⟨reachable_dbDone, by decide, by decide, by decide⟩

/-- C8 amended: reject_participant removes the participant row and every one
of that participant's entry rows across all raffles, pending or completed;
raffles (and their pots), winners, and all other participants' entries are
untouched. -/
theorem claim_C8_reject_scope (pid : ℕ) (db : DB) (p0 : Participant)
    (hF : db.participants.find? (fun p => p.id == pid) = some p0) :
    (reject_participant pid db).1.entries =
      db.entries.filter (fun e => e.participant_id != pid) ∧
    (reject_participant pid db).1.participants =
      db.participants.filter (fun p => p.id != pid) ∧
    (reject_participant pid db).1.raffles = db.raffles ∧
    (reject_participant pid db).1.winners = db.winners ∧
    ∀ e ∈ db.entries, e.participant_id ≠ pid →
      e ∈ (reject_participant pid db).1.entries := by
  rw [reject_char hF]
  refine ⟨rfl, rfl, rfl, rfl, ?_⟩
  intro e he hne
  exact List.mem_filter.mpr ⟨he, by simpa using hne⟩

/-- C8 witness: rejecting the only participant of dbDone. -/
theorem claim_C8_witness :
    (reject_participant 2 dbDone).1.entries =
      dbDone.entries.filter (fun e => e.participant_id != 2) ∧
    (reject_participant 2 dbDone).1.participants =
      dbDone.participants.filter (fun p => p.id != 2) ∧
    (reject_participant 2 dbDone).1.raffles = dbDone.raffles ∧
    (reject_participant 2 dbDone).1.winners = dbDone.winners ∧
    ∀ e ∈ dbDone.entries, e.participant_id ≠ 2 →
      e ∈ (reject_participant 2 dbDone).1.entries :=
  claim_C8_reject_scope 2 dbDone
    { id := 2, name := "alice", phone := "0801", wager_amount := 10, verified := true }
    (by decide)

/-- What the draw on dbTwo produces: result for raffle 1, pot 100, house cut
20, winner amounts [50, 30] (the amounts are settled through the payout
lemmas, since the kernel does not reduce rational arithmetic). -/
theorem dbTwoDraw_spec :
    ∃ db3 res, execute_raffle_draw sigma0 0 none dbTwo = (db3, some res) ∧
      res.raffle_id = 1 ∧ res.pot = 100 ∧ res.house_cut = some 20 ∧
      res.winners.map (fun w => w.amount) = [50, 30] ∧ res.winners.length = 2 := by
  obtain ⟨db3, recs, data, heq, hamt, hdata, hpos, hdpos, hnodup, hrid, hwin, hpc, hcomp,
    hnew, hnopw⟩ :=
    @draw_nonempty_char sigma0 0 none dbTwo
      { id := 1, draw_time := 30, total_pot := 100, status := "pending" }
      (reachable_inv reachable_dbTwo) (by decide) (by decide) (by decide)
  have hmin : min 2 (weightedEntries (entriesFor dbTwo
      ({ id := 1, draw_time := 30, total_pot := 100,
         status := "pending" } : Raffle).id)).dedup.length = 2 := by decide
  have hamts : data.map (fun w => w.amount) = [50, 30] := by
    rw [hdata.trans hamt, hmin]
    show (distributionsFor 2).map (payout 80) = [50, 30]
    rw [show distributionsFor 2 = [(0.625 : ℚ), (0.375 : ℚ)] from rfl]
    rw [List.map_cons, List.map_cons, List.map_nil, payout_frac58, payout_frac38]
  refine ⟨db3, _, heq, rfl, rfl, rfl, hamts, ?_⟩
  have hlen := congrArg List.length hamts
  simpa using hlen

/-- C2 counterexample: in a reachable state with two distinct participants of
50 each (pot 100) and configuration keys max_winners=5, a fraction table, and
house_rate set, the draw pays [50, 30] — the hardcoded fractions
[0.625, 0.375] of the prize pool 80 — not the [49, ...] that the claimed
truncated-and-renormalized fractions [0.615, 0.385] would give. -/
theorem claim_C2_counterexample :
    Reachable dbTwo ∧
    getConfig dbTwo "max_winners" "" = "5" ∧
    getConfig dbTwo "payout_fractions" "" = "0.40,0.25,0.18,0.10,0.07" ∧
    (∃ db3 res, execute_raffle_draw sigma0 0 none dbTwo = (db3, some res) ∧
      res.winners.map (fun w => w.amount) = [50, 30]) ∧
    distributionsFor 2 = [(0.625 : ℚ), (0.375 : ℚ)] ∧
    distributionsFor 2 ≠ [(0.615 : ℚ), (0.385 : ℚ)] ∧
    payout 80 (0.625 : ℚ) = 50 ∧ payout 80 (0.615 : ℚ) = 49 ∧ (50 : ℕ) ≠ 49 := by
  obtain ⟨db3, res, heq, hridx, hpot, hhc, hamts, hlen⟩ := dbTwoDraw_spec
  have hp58 : payout 80 (0.625 : ℚ) = 50 := by
    rw [payout_frac58]
  have hp615 : payout 80 (0.615 : ℚ) = 49 := by
    rw [payout_eq_div 80 123 200 (0.615 : ℚ) (by norm_num) (by norm_num)]
  have hneq : distributionsFor 2 ≠ [(0.615 : ℚ), (0.385 : ℚ)] := by
    intro hc
    rw [show distributionsFor 2 = [(0.625 : ℚ), (0.375 : ℚ)] from rfl] at hc
    injection hc with h1 h2
    norm_num at h1
  exact ⟨reachable_dbTwo, by decide, by decide, ⟨db3, res, heq, hamts⟩, rfl, hneq,
    hp58, hp615, by decide⟩

/-- C2 amended: the number of payout positions is min(2, d) for d distinct
entered participants — the winner cap 2 and the fraction list are hardcoded,
not configuration — and the fractions applied are [0.625, 0.375] truncated to
that count, replaced by [1.0] for a single winner; the winner amounts are
those fractions of the prize pool, floored. -/
theorem claim_C2_fractions (db : DB) (σ : ℕ → ℕ) (now : ℕ) (rid : Option ℕ)
    (raffle : Raffle) (h : Reachable db) (hT : drawTarget rid db = some raffle)
    (hpend : raffleIsPending raffle = true) (hne : entriesFor db raffle.id ≠ []) :
    distributionsFor 1 = [(1 : ℚ)] ∧
    distributionsFor 2 = [(0.625 : ℚ), (0.375 : ℚ)] ∧
    ∃ db3 res, execute_raffle_draw σ now rid db = (db3, some res) ∧
      res.winners.length = min 2 (weightedEntries (entriesFor db raffle.id)).dedup.length ∧
      res.winners.map (fun w => w.amount) =
        (distributionsFor (min 2 (weightedEntries (entriesFor db raffle.id)).dedup.length)).map
          (payout (raffle.total_pot - houseCut raffle.total_pot)) := by
  have hinv := reachable_inv h
  obtain ⟨db3, recs, data, heq, hamt, hdata, hpos, hdpos, hnodup, hrid, hwin, hpc, hcomp,
    hnew, hnopw⟩ := draw_nonempty_char hinv hT hpend hne
  refine ⟨rfl, rfl, db3, _, heq, ?_, ?_⟩
  · have hlen : data.length =
        (distributionsFor (min 2 (weightedEntries
          (entriesFor db raffle.id)).dedup.length)).length := by
      have h1 : (data.map (fun w => w.amount)).length = data.length := List.length_map _ _
      have h2 := congrArg List.length (hdata.trans hamt)
      simp only [List.length_map] at h2
      simpa using h2
    rw [hlen]
    have hwne : weightedEntries (entriesFor db raffle.id) ≠ [] := by
      apply weightedEntries_ne_nil hne
      intro e he
      exact hinv.entry_count_pos e (List.mem_filter.mp he).1
    have hd1 := dedup_length_pos hwne
    rcases Nat.lt_or_ge (weightedEntries (entriesFor db raffle.id)).dedup.length 2 with hd | hd
    · have hmin : min 2 (weightedEntries (entriesFor db raffle.id)).dedup.length = 1 := by
        omega
      rw [hmin]
      exact distributionsFor_length_one
    · have hmin : min 2 (weightedEntries (entriesFor db raffle.id)).dedup.length = 2 := by
        omega
      rw [hmin]
      exact distributionsFor_length_two
  · exact hdata.trans hamt

/-- C2 witness: the pair draw on the concrete two-participant state. -/
theorem claim_C2_witness :
    distributionsFor 1 = [(1 : ℚ)] ∧
    distributionsFor 2 = [(0.625 : ℚ), (0.375 : ℚ)] ∧
    ∃ db3 res, execute_raffle_draw sigma0 0 none dbTwo = (db3, some res) ∧
      res.winners.length = min 2 (weightedEntries (entriesFor dbTwo 1)).dedup.length ∧
      res.winners.map (fun w => w.amount) =
        (distributionsFor (min 2 (weightedEntries (entriesFor dbTwo 1)).dedup.length)).map
          (payout (100 - houseCut 100)) :=
  claim_C2_fractions dbTwo sigma0 0 none
    { id := 1, draw_time := 30, total_pot := 100, status := "pending" }
    reachable_dbTwo (by decide) (by decide) (by decide)

/-- C3 counterexample: in a reachable state whose configuration sets
house_rate to 0.10, the draw on a pot of 100 still takes a house cut of 20 —
the hardcoded 20% — not the 10 the configured rate would give. -/
theorem claim_C3_counterexample :
    Reachable dbTwo ∧
    getConfig dbTwo "house_rate" "" = "0.10" ∧
    (∃ db3 res, execute_raffle_draw sigma0 0 none dbTwo = (db3, some res) ∧
      res.pot = 100 ∧ res.house_cut = some 20) ∧
    houseCut 100 = 20 ∧ (20 : ℕ) ≠ 100 * 10 / 100 := by
  obtain ⟨db3, res, heq, hridx, hpot, hhc, hamts, hlen⟩ := dbTwoDraw_spec
  exact ⟨reachable_dbTwo, by decide, ⟨db3, res, heq, hpot, hhc⟩, by decide, by decide⟩

/-- C3 amended: for every draw, house_cut = floor(total_pot × 0.20) and
prize_pool = total_pot − house_cut, with the 20% house rate hardcoded in
execute_raffle_draw rather than read from configuration: the draw result is
identical under any configuration contents. -/
theorem claim_C3_house_cut (db : DB) (σ : ℕ → ℕ) (now : ℕ) (rid : Option ℕ)
    (raffle : Raffle) (h : Reachable db) (hT : drawTarget rid db = some raffle)
    (hpend : raffleIsPending raffle = true) (hne : entriesFor db raffle.id ≠ []) :
    (∀ pot : ℕ, houseCut pot = pot * 20 / 100) ∧
    (∃ db3 res, execute_raffle_draw σ now rid db = (db3, some res) ∧
      res.pot = raffle.total_pot ∧
      res.house_cut = some (raffle.total_pot * 20 / 100) ∧
      res.winners.map (fun w => w.amount) =
        (distributionsFor (min 2 (weightedEntries (entriesFor db raffle.id)).dedup.length)).map
          (payout (raffle.total_pot - houseCut raffle.total_pot))) ∧
    (∀ c : List (String × String),
      (execute_raffle_draw σ now rid { db with configs := c }).2 =
      (execute_raffle_draw σ now rid db).2) := by
  have hinv := reachable_inv h
  obtain ⟨db3, recs, data, heq, hamt, hdata, hpos, hdpos, hnodup, hrid, hwin, hpc, hcomp,
    hnew, hnopw⟩ := draw_nonempty_char hinv hT hpend hne
  refine ⟨fun pot => rfl, ⟨db3, _, heq, rfl, rfl, hdata.trans hamt⟩, ?_⟩
  intro c
  obtain ⟨cs, ps, rs, es, ws, n⟩ := db
  exact draw_result_configs σ now rid c cs ps rs es ws n

/-- C3 witness: the concrete two-participant draw with house_rate configured
to 0.10 and house cut 20 taken. -/
theorem claim_C3_witness :
    (∀ pot : ℕ, houseCut pot = pot * 20 / 100) ∧
    (∃ db3 res, execute_raffle_draw sigma0 0 none dbTwo = (db3, some res) ∧
      res.pot = 100 ∧
      res.house_cut = some (100 * 20 / 100) ∧
      res.winners.map (fun w => w.amount) =
        (distributionsFor (min 2 (weightedEntries (entriesFor dbTwo 1)).dedup.length)).map
          (payout (100 - houseCut 100))) ∧
    (∀ c : List (String × String),
      (execute_raffle_draw sigma0 0 none { dbTwo with configs := c }).2 =
      (execute_raffle_draw sigma0 0 none dbTwo).2) :=
  claim_C3_house_cut dbTwo sigma0 0 none
    { id := 1, draw_time := 30, total_pot := 100, status := "pending" }
    reachable_dbTwo (by decide) (by decide) (by decide)

/-- find? returns a given member when the predicate can hold of no other
element (the list is keyed by g and the predicate pins the key). -/
theorem find?_eq_of_nodup_key {α β : Type} (g : α → β) (p : α → Bool) {l : List α}
    (h : (l.map g).Nodup) {a : α} (ha : a ∈ l) (hpa : p a = true)
    (hkey : ∀ x ∈ l, p x = true → g x = g a) : l.find? p = some a := by
  induction l with
  | nil => simp at ha
  | cons b t ih =>
    rw [List.map_cons] at h
    have hcons := List.nodup_cons.mp h
    by_cases hpb : p b = true
    · have hab : b = a := by
        rcases List.mem_cons.mp ha with rfl | ha2
        · rfl
        · exfalso
          apply hcons.1
          rw [hkey b (List.mem_cons_self b t) hpb]
          exact List.mem_map_of_mem g ha2
      rw [List.find?_cons_of_pos _ hpb, hab]
    · rw [List.find?_cons_of_neg _ hpb]
      have ha2 : a ∈ t := by
        rcases List.mem_cons.mp ha with rfl | ha2
        · exact absurd hpa (by simpa using hpb)
        · exact ha2
      exact ih hcons.2 ha2 (fun x hx hpx => hkey x (by simp [hx]) hpx)

/-- The flooring bounds for the truncated distribution list: the amounts sum
to at most the prize pool and fall short of it by less than the number of
positions. -/
theorem payout_sum_bounds (pp d : ℕ) (hd : 1 ≤ d) :
    ((distributionsFor (min 2 d)).map (payout pp)).sum ≤ pp ∧
    pp - ((distributionsFor (min 2 d)).map (payout pp)).sum < min 2 d := by
  rcases Nat.lt_or_ge d 2 with h2 | h2
  · have hmin : min 2 d = 1 := by omega
    rw [hmin]
    rw [show distributionsFor 1 = [(1 : ℚ)] from rfl]
    rw [List.map_cons, List.map_nil, payout_one]
    simp only [List.sum_cons, List.sum_nil]
    omega
  · have hmin : min 2 d = 2 := by omega
    rw [hmin]
    rw [show distributionsFor 2 = [(0.625 : ℚ), (0.375 : ℚ)] from rfl]
    rw [List.map_cons, List.map_cons, List.map_nil, payout_frac58, payout_frac38]
    simp only [List.sum_cons, List.sum_nil]
    have hb := payout_two_bounds pp
    omega

/-- C6: for every draw that returns a result, no participant appears more
than once among the drawn raffle's Winner records: the winner rows recorded
for res.raffle_id in the post-draw state have pairwise distinct participant
ids (each selected participant's occurrences are removed from the weighted
pool before the next position is drawn). -/
theorem claim_C6_no_duplicate_winner (db : DB) (σ : ℕ → ℕ) (now : ℕ) (rid : Option ℕ)
    (db2 : DB) (res : DrawResult) (h : Reachable db)
    (hdraw : execute_raffle_draw σ now rid db = (db2, some res)) :
    ((db2.winners.filter (fun w => w.raffle_id == res.raffle_id)).map
      (fun w => w.participant_id)).Nodup := by
  have hinv := reachable_inv h
  obtain ⟨raffle, hT, hpend⟩ := draw_some_target hdraw
  by_cases hne : entriesFor db raffle.id = []
  · obtain ⟨db3, heq, hwz, hpc, hcomp, hnew, hnopw⟩ := draw_empty_char hinv hT hpend hne
    rw [heq] at hdraw
    injection hdraw with hA hB
    injection hB with hB
    rw [← hA, ← hB]
    dsimp only
    rw [hwz]
    have hfil : db.winners.filter (fun w => w.raffle_id == raffle.id) = [] := by
      rw [List.filter_eq_nil_iff]
      intro w hwmem
      simpa using hnopw w hwmem
    rw [hfil]
    exact List.nodup_nil
  · obtain ⟨db3, recs, data, heq, hamt, hdata, hpos, hdpos, hnodup, hridw, hw3, hpc,
      hcomp, hnew, hnopw⟩ := draw_nonempty_char hinv hT hpend hne
    rw [heq] at hdraw
    injection hdraw with hA hB
    injection hB with hB
    rw [← hA, ← hB]
    dsimp only
    rw [hw3, List.filter_append]
    have hfil1 : db.winners.filter (fun w => w.raffle_id == raffle.id) = [] := by
      rw [List.filter_eq_nil_iff]
      intro w hwmem
      simpa using hnopw w hwmem
    have hfil2 : recs.filter (fun w => w.raffle_id == raffle.id) = recs := by
      rw [List.filter_eq_self]
      intro w hwmem
      simp [hridw w hwmem]
    rw [hfil1, hfil2]
    simpa using hnodup

/-- C6 witness: the concrete two-participant draw records two winners for
raffle 1 with distinct participant ids. -/
theorem claim_C6_witness :
    (((execute_raffle_draw sigma0 0 none dbTwo).1.winners.filter
        (fun w => w.raffle_id == 1)).map (fun w => w.participant_id)).Nodup := by
  obtain ⟨db3, res, heq, hridx, hpot, hhc, hamts, hlen⟩ := dbTwoDraw_spec
  have h6 := claim_C6_no_duplicate_winner dbTwo sigma0 0 none db3 res reachable_dbTwo heq
  rw [hridx] at h6
  have hfst : (execute_raffle_draw sigma0 0 none dbTwo).1 = db3 := by
    rw [heq]
  rw [hfst]
  exact h6

/-- C7: for every draw with entries, the winner amounts are exactly the
truncated fraction list applied position by position as
floor(prize_pool × fraction), the flooring remainder is not redistributed, so
the amounts sum to at most the prize pool and fall short of it by less than
the number of winner positions. -/
theorem claim_C7_payout_bounds (db : DB) (σ : ℕ → ℕ) (now : ℕ) (rid : Option ℕ)
    (raffle : Raffle) (h : Reachable db) (hT : drawTarget rid db = some raffle)
    (hpend : raffleIsPending raffle = true) (hne : entriesFor db raffle.id ≠ []) :
    ∃ db3 res, execute_raffle_draw σ now rid db = (db3, some res) ∧
      res.winners.map (fun w => w.amount) =
        (distributionsFor res.winners.length).map (payout (res.pot - houseCut res.pot)) ∧
      (res.winners.map (fun w => w.amount)).sum ≤ res.pot - houseCut res.pot ∧
      res.pot - houseCut res.pot - (res.winners.map (fun w => w.amount)).sum <
        res.winners.length := by
  have hinv := reachable_inv h
  obtain ⟨db3, recs, data, heq, hamt, hdata, hpos, hdpos, hnodup, hridw, hw3, hpc,
    hcomp, hnew, hnopw⟩ := draw_nonempty_char hinv hT hpend hne
  have hwne : weightedEntries (entriesFor db raffle.id) ≠ [] := by
    apply weightedEntries_ne_nil hne
    intro e he
    exact hinv.entry_count_pos e (List.mem_filter.mp he).1
  have hd1 := dedup_length_pos hwne
  have hdl : (distributionsFor (min 2 (weightedEntries
      (entriesFor db raffle.id)).dedup.length)).length =
      min 2 (weightedEntries (entriesFor db raffle.id)).dedup.length := by
    rcases Nat.lt_or_ge (weightedEntries (entriesFor db raffle.id)).dedup.length 2 with hd | hd
    · have hmin : min 2 (weightedEntries (entriesFor db raffle.id)).dedup.length = 1 := by
        omega
      rw [hmin]
      exact distributionsFor_length_one
    · have hmin : min 2 (weightedEntries (entriesFor db raffle.id)).dedup.length = 2 := by
        omega
      rw [hmin]
      exact distributionsFor_length_two
  have hlen : data.length =
      min 2 (weightedEntries (entriesFor db raffle.id)).dedup.length := by
    have h2 := congrArg List.length (hdata.trans hamt)
    simp only [List.length_map] at h2
    exact h2.trans hdl
  refine ⟨db3, _, heq, ?_, ?_, ?_⟩
  · dsimp only
    rw [hlen]
    exact hdata.trans hamt
  · dsimp only
    rw [hdata.trans hamt]
    exact (payout_sum_bounds (raffle.total_pot - houseCut raffle.total_pot) _ hd1).1
  · dsimp only
    rw [hdata.trans hamt, hlen]
    exact (payout_sum_bounds (raffle.total_pot - houseCut raffle.total_pot) _ hd1).2

/-- C7 witness: the concrete two-participant draw (pot 100, prize pool 80)
pays the floored fractions and leaves the remainder with the house. -/
theorem claim_C7_witness :
    ∃ db3 res, execute_raffle_draw sigma0 0 none dbTwo = (db3, some res) ∧
      res.winners.map (fun w => w.amount) =
        (distributionsFor res.winners.length).map (payout (res.pot - houseCut res.pot)) ∧
      (res.winners.map (fun w => w.amount)).sum ≤ res.pot - houseCut res.pot ∧
      res.pot - houseCut res.pot - (res.winners.map (fun w => w.amount)).sum <
        res.winners.length :=
  claim_C7_payout_bounds dbTwo sigma0 0 none
    { id := 1, draw_time := 30, total_pot := 100, status := "pending" }
    reachable_dbTwo (by decide) (by decide) (by decide)

/-- C9: a draw on a pending raffle with zero entries transitions it directly
to completed, rolls over a new pending raffle, creates no Winner records, and
returns an empty winners list (pot 0, no house cut) rather than failing. -/
theorem claim_C9_empty_draw (db : DB) (σ : ℕ → ℕ) (now : ℕ) (rid : Option ℕ)
    (raffle : Raffle) (h : Reachable db) (hT : drawTarget rid db = some raffle)
    (hpend : raffleIsPending raffle = true) (hne : entriesFor db raffle.id = []) :
    ∃ db3, execute_raffle_draw σ now rid db =
        (db3, some { winners := [], pot := 0, house_cut := none,
                     raffle_id := raffle.id }) ∧
      db3.winners = db.winners ∧
      pendingCount db3 = 1 ∧
      (∃ rc ∈ db3.raffles, rc.id = raffle.id ∧ rc.status = "completed") ∧
      (∃ rp ∈ db3.raffles, raffleIsPending rp = true ∧ rp.id = db.nextId) := by
  obtain ⟨db3, heq, hwz, hpc, hcomp, hnew, hnopw⟩ :=
    draw_empty_char (reachable_inv h) hT hpend hne
  exact ⟨db3, heq, hwz, hpc, hcomp, hnew⟩

/-- C9 witness: the startup state's raffle 1 has no entries; drawing it
completes it, rolls over raffle 2 as the new pending raffle, and returns the
empty result. -/
theorem claim_C9_witness :
    ∃ db3, execute_raffle_draw sigma0 0 none (initialDB 0) =
        (db3, some { winners := [], pot := 0, house_cut := none, raffle_id := 1 }) ∧
      db3.winners = (initialDB 0).winners ∧
      pendingCount db3 = 1 ∧
      (∃ rc ∈ db3.raffles, rc.id = 1 ∧ rc.status = "completed") ∧
      (∃ rp ∈ db3.raffles, raffleIsPending rp = true ∧ rp.id = 2) :=
  claim_C9_empty_draw (initialDB 0) sigma0 0 none
    { id := 1, draw_time := 30, total_pot := 0, status := "pending" }
    ⟨0, Relation.ReflTransGen.refl⟩ (by decide) (by decide) (by decide)

/-- C10: a signup with an existing phone mutates the existing rows in place:
the participant and entry row counts are unchanged (no second Participant and
no second Entry is created), the existing participant's wager_amount grows by
the wager, their entry for the pending raffle grows by wager/10 entries, the
pot grows by the wager, and at most one Entry per (raffle, participant) pair
is preserved. -/
theorem claim_C10_signup_existing (now : ℕ) (name phone : String) (wager : ℕ)
    (pin : String) (db : DB) (p : Participant) (h : Reachable db)
    (hname : (name == "") = false) (hphone : (phone == "") = false)
    (hw : ¬ wager < 10) (hmod : (wager % 10 != 0) = false)
    (hpin : (pin != getConfig db "admin_pin" "1234") = false)
    (hfindp : db.participants.find? (fun q => q.phone == phone) = some p) :
    (signup now name phone wager pin db).1.participants.length =
      db.participants.length ∧
    (signup now name phone wager pin db).1.entries.length = db.entries.length ∧
    (∃ q ∈ (signup now name phone wager pin db).1.participants,
      q.id = p.id ∧ q.wager_amount = p.wager_amount + wager) ∧
    (∃ r, db.raffles.find? raffleIsPending = some r ∧
      (∃ e ∈ db.entries, e.raffle_id = r.id ∧ e.participant_id = p.id ∧
        ∃ e2 ∈ (signup now name phone wager pin db).1.entries,
          e2.raffle_id = r.id ∧ e2.participant_id = p.id ∧
          e2.entry_count = e.entry_count + wager / 10) ∧
      (∃ r2 ∈ (signup now name phone wager pin db).1.raffles,
        r2.id = r.id ∧ r2.total_pot = r.total_pot + wager)) ∧
    ((signup now name phone wager pin db).1.entries.map
      (fun e => (e.raffle_id, e.participant_id))).Nodup := by
  have hinv := reachable_inv h
  obtain ⟨r, e, hfind, hpendr, hrmem, hemem, he1, he2, hsig⟩ :=
    signup_existing_char hinv hname hphone hw hmod hpin hfindp
  have hpmem : p ∈ db.participants := List.mem_of_find?_eq_some hfindp
  have hfid : db.participants.find? (fun q => q.id == p.id) = some p := by
    refine find?_eq_of_nodup_key (fun q => q.id) (fun q => q.id == p.id)
      hinv.part_ids_nodup hpmem (by simp) ?_
    intro x hx hpx
    simpa using hpx
  have hfe : db.entries.find?
      (fun e2 => e2.raffle_id == r.id && e2.participant_id == p.id) = some e := by
    refine find?_eq_of_nodup_key (fun e2 => (e2.raffle_id, e2.participant_id))
      (fun e2 => e2.raffle_id == r.id && e2.participant_id == p.id)
      hinv.entry_pairs_nodup hemem (by simp [he1, he2]) ?_
    intro x hx hpx
    simp at hpx
    simp [hpx.1, hpx.2, he1, he2]
  have hfr : db.raffles.find? (fun r2 => r2.id == r.id) = some r := by
    refine find?_eq_of_nodup_key (fun r2 => r2.id) (fun r2 => r2.id == r.id)
      hinv.raffle_ids_nodup hrmem (by simp) ?_
    intro x hx hpx
    simpa using hpx
  rw [hsig]
  dsimp only
  refine ⟨length_updateFirst _ _ _, length_updateFirst _ _ _, ?_, ?_, ?_⟩
  · obtain ⟨l1, l2, hl, hl1, hu⟩ := updateFirst_decomp
      (fun _ => { p with wager_amount := p.wager_amount + wager, name := name }) hfid
    refine ⟨{ p with wager_amount := p.wager_amount + wager, name := name }, ?_, rfl, rfl⟩
    rw [hu]
    exact List.mem_append_right _ (List.mem_cons_self _ _)
  · refine ⟨r, hfind, ⟨e, hemem, he1, he2, ?_⟩, ?_⟩
    · obtain ⟨l1, l2, hl, hl1, hu⟩ := updateFirst_decomp
        (fun e2 => { e2 with entry_count := e2.entry_count + wager / 10 }) hfe
      refine ⟨{ e with entry_count := e.entry_count + wager / 10 }, ?_, he1, he2, rfl⟩
      rw [hu]
      exact List.mem_append_right _ (List.mem_cons_self _ _)
    · obtain ⟨l1, l2, hl, hl1, hu⟩ := updateFirst_decomp
        (fun r2 => { r2 with total_pot := r2.total_pot + wager }) hfr
      refine ⟨{ r with total_pot := r.total_pot + wager }, ?_, rfl, rfl⟩
      rw [hu]
      exact List.mem_append_right _ (List.mem_cons_self _ _)
  · have hmap := map_updateFirst
      (fun e2 => e2.raffle_id == r.id && e2.participant_id == p.id)
      (fun e2 => { e2 with entry_count := e2.entry_count + wager / 10 })
      (fun e2 => (e2.raffle_id, e2.participant_id)) db.entries (fun a => rfl)
    rw [hmap]
    exact hinv.entry_pairs_nodup

/-- C10 witness: a second signup for alice's phone on the one-participant
state adds 20 to her wager and 2 to her entry count, adds 20 to the pot, and
creates no new participant or entry row. -/
theorem claim_C10_witness :
    (signup 0 "alice" "0801" 20 "1234" dbOne).1.participants.length =
      dbOne.participants.length ∧
    (signup 0 "alice" "0801" 20 "1234" dbOne).1.entries.length = dbOne.entries.length ∧
    (∃ q ∈ (signup 0 "alice" "0801" 20 "1234" dbOne).1.participants,
      q.id = 2 ∧ q.wager_amount = 30) ∧
    (∃ r, dbOne.raffles.find? raffleIsPending = some r ∧
      (∃ e ∈ dbOne.entries, e.raffle_id = r.id ∧ e.participant_id = 2 ∧
        ∃ e2 ∈ (signup 0 "alice" "0801" 20 "1234" dbOne).1.entries,
          e2.raffle_id = r.id ∧ e2.participant_id = 2 ∧
          e2.entry_count = e.entry_count + 2) ∧
      (∃ r2 ∈ (signup 0 "alice" "0801" 20 "1234" dbOne).1.raffles,
        r2.id = r.id ∧ r2.total_pot = r.total_pot + 20)) ∧
    ((signup 0 "alice" "0801" 20 "1234" dbOne).1.entries.map
      (fun e => (e.raffle_id, e.participant_id))).Nodup :=
  claim_C10_signup_existing 0 "alice" "0801" 20 "1234" dbOne
    { id := 2, name := "alice", phone := "0801", wager_amount := 10, verified := true }
    reachable_dbOne (by decide) (by decide) (by decide) (by decide) (by decide) (by decide)

end Bestw
